import Mathlib

/-!
Verification of the pm001-scraper repository.

Strings of the Python source are modelled as lists of characters
(`Str := List Char`).  Python `str.split(sep)` is `List.splitOn`,
`sep.join` is `List.intercalate [sep]`, `str.strip()` is `trimL`,
`str.startswith` is `startsWithL`.  `str.splitlines()` is modelled as
splitting on the newline character; the Python variant additionally
treats rare separators (`\r`, form feeds, ...) as line breaks and drops
a trailing empty line, but every place the source uses it immediately
filters out whitespace-only lines, so the two agree there.

The file covers, from `src/ai.py`: `extract_tsv_from_ai_output`,
`merge_all_ai_tsv_results`, the batch partitioning and the worker pool
of `split_and_analyze_by_board`, and the retry loop `analyze_batch`;
from `src/测试.py`: `parse_date_string`, the per-container record
construction of `parse_board_page`, and the per-board page loop of
`scrape_recent_posts`.
-/

/-- Characters of a Python string. -/
abbrev Str := List Char

/-- Python `s.startswith(pat)`: `pat` is a prefix of `s`. -/
def startsWithL : Str → Str → Bool
  | [], _ => true
  | _ :: _, [] => false
  | p :: ps, c :: cs => p = c && startsWithL ps cs

/-- Whitespace test used for Python `str.strip` and the regex class `\s`.
Python additionally treats some exotic unicode spaces as whitespace;
none of them occurs in the modelled data. -/
def isWs (c : Char) : Bool := c.isWhitespace

/-- Python `s.strip()`: remove leading and trailing whitespace. -/
def trimL (s : Str) : Str := (s.dropWhile isWs).rdropWhile isWs

/-- Keep the first occurrence of every element, dropping later exact
duplicates; `dedupKeepFirst [] l` is Python
`list(dict.fromkeys(l))`. -/
def dedupKeepFirst (seen : List Str) : List Str → List Str
  | [] => []
  | x :: xs =>
    if x ∈ seen then dedupKeepFirst seen xs
    else x :: dedupKeepFirst (x :: seen) xs

/-- Association-list lookup, used for the Python dict
`BOARD_ID_NAME_MAP.get`. -/
def assocGet : List (Str × Str) → Str → Option Str
  | [], _ => none
  | (k, v) :: rest, key => if k = key then some v else assocGet rest key

/-- The board-id → Chinese board name dict `BOARD_ID_NAME_MAP`
of `src/ai.py` (all 45 entries). -/
def BOARD_ID_NAME_MAP : List (Str × Str) :=
  [(("5").toList, ("小版张专栏").toList),
   (("7").toList, ("邮资片JP专栏").toList),
   (("8").toList, ("纪特文编JT新票栏目").toList),
   (("120").toList, ("年册/集邮工具").toList),
   (("143").toList, ("港澳邮票专栏").toList),
   (("159").toList, ("编年版票专栏").toList),
   (("160").toList, ("贺年封片简卡").toList),
   (("161").toList, ("纪特文编JT销封栏目").toList),
   (("162").toList, ("小本票/大本册专栏").toList),
   (("168").toList, ("邮票、封片靓号专栏").toList),
   (("190").toList, ("普封普片").toList),
   (("191").toList, ("邮资片TP/YP/FP").toList),
   (("192").toList, ("个性化原票专栏").toList),
   (("193").toList, ("JF封/其它类封").toList),
   (("195").toList, ("贺年邮票/贺卡邮票/军邮邮票").toList),
   (("196").toList, ("编年套票栏目").toList),
   (("199").toList, ("原地实寄/外交/极限等封片").toList),
   (("211").toList, ("邮票大类产品票礼品册").toList),
   (("2").toList, ("钱币大卖场").toList),
   (("9").toList, ("现代金银贵金属币").toList),
   (("10").toList, ("普通纪念币").toList),
   (("11").toList, ("一二三版纸币").toList),
   (("119").toList, ("第四版纸币").toList),
   (("128").toList, ("纸币冠号（不含流通纸币）").toList),
   (("136").toList, ("评级币评级钞").toList),
   (("148").toList, ("古币银元").toList),
   (("151").toList, ("联体钞/纪念钞").toList),
   (("163").toList, ("清朝民国纸币/老银票").toList),
   (("165").toList, ("贵金属金银铜纪念章").toList),
   (("169").toList, ("外国纸币、硬币").toList),
   (("171").toList, ("新中国兑换券、债券、测试券").toList),
   (("184").toList, ("港澳台钱币专栏").toList),
   (("210").toList, ("硬币专栏").toList),
   (("3").toList, ("卡类大卖场").toList),
   (("74").toList, ("田村卡IC卡专栏").toList),
   (("185").toList, ("其它卡类卖场").toList),
   (("23").toList, ("古玩金银铜瓷陶器").toList),
   (("155").toList, ("古玩竹木雕漆器").toList),
   (("157").toList, ("书报字画").toList),
   (("166").toList, ("当代新制玉器").toList),
   (("187").toList, ("其它古玩杂件藏品").toList),
   (("198").toList, ("历代古玉器").toList)]

/-! ### The fenced-block regex of `extract_tsv_from_ai_output`

`re.search(r"```tsv\s*([\s\S]+?)```", ai_output)` is modelled by a
hand-rolled matcher with the same backtracking semantics: scan for the
literal ` ```tsv `, greedily absorb whitespace, then capture lazily up
to the first closing ` ``` ` (the capture must be non-empty; if the
closing fence starts exactly at the end of the whitespace run, the
greedy `\s*` gives one character back to the capture). -/

/-- The opening fence literal of the regex. -/
def fenceTok : Str := ("```tsv").toList

/-- The closing fence literal of the regex. -/
def fence3 : Str := ("```").toList

/-- Offset of the first occurrence of ` ``` ` in `r` (scanning left to
right), if any. -/
def firstFenceAux : Str → Nat → Option Nat
  | [], _ => none
  | c :: t, acc =>
    if startsWithL fence3 (c :: t) then some acc
    else firstFenceAux t (acc + 1)

/-- Smallest position `j' ≥ j` in `r` where ` ``` ` starts. -/
def firstFenceFrom (r : Str) (j : Nat) : Option Nat :=
  (firstFenceAux (r.drop j) 0).map (· + j)

/-- Match `\s*([\s\S]+?)``` ` against `r` (the text right after the
opening ` ```tsv `), returning the capture group. -/
def fenceBodyAt (r : Str) : Option Str :=
  let k0 := (r.takeWhile isWs).length
  match firstFenceFrom r (k0 + 1) with
  | some j => some ((r.drop k0).take (j - k0))
  | none =>
    if 1 ≤ k0 && startsWithL fence3 (r.drop k0) then
      some ((r.drop (k0 - 1)).take 1)
    else none

/-- `re.search` for the fenced-block regex: try every start position
left to right; at each position where ` ```tsv ` matches, try the rest
of the pattern. -/
def tsvFenceSearch : Str → Option Str
  | [] => none
  | c :: t =>
    if startsWithL fenceTok (c :: t) then
      match fenceBodyAt ((c :: t).drop 6) with
      | some cap => some cap
      | none => tsvFenceSearch t
    else tsvFenceSearch t

/-- The failure-marker prefix `AI分析失败`. -/
def failMarker : Str := ("AI分析失败").toList

/-- The header-signature prefix `原始标题文本`. -/
def headMarker : Str := ("原始标题文本").toList

/-- The comment-line prefix `# `. -/
def hashMarker : Str := ("# ").toList

/-- `extract_tsv_from_ai_output` of `src/ai.py` (lines 427–447):
prefer a fenced ` ```tsv ` block; otherwise take everything from the
first line whose stripped form starts with `原始标题文本`; then drop
blank lines and lines starting with `AI分析失败` or `# `. -/
def extract_tsv_from_ai_output (ai_output : Str) : List Str :=
  let tsv_block : Str :=
    match tsvFenceSearch ai_output with
    | some b => b
    | none =>
      let lines := ai_output.splitOn '\n'
      match lines.findIdx? (fun l => startsWithL headMarker (trimL l)) with
      | some idx => List.intercalate ['\n'] (lines.drop idx)
      | none => []
  (tsv_block.splitOn '\n').filter
    (fun l => !(trimL l).isEmpty && !startsWithL failMarker l && !startsWithL hashMarker l)

/-- The header-collecting loop of `merge_all_ai_tsv_results`
(lines 454–464): the first output with a non-empty extracted block
contributes all its lines (header included); every later output
contributes its lines minus the first (its own header). The flag
records whether `header` has been set. -/
def mergeLines (headerSeen : Bool) : List Str → List Str
  | [] => []
  | o :: rest =>
    let tl := extract_tsv_from_ai_output o
    if tl.isEmpty then mergeLines headerSeen rest
    else if headerSeen then tl.drop 1 ++ mergeLines true rest
    else tl ++ mergeLines true rest

/-- Column title `板块ID`. -/
def boardIdCol : Str := ("板块ID").toList

/-- Column title `板块名称`. -/
def boardNameCol : Str := ("板块名称").toList

/-- Python `fields[idx].strip()` lookup-and-insert step applied to one
data row (lines 475–481 of `src/ai.py`): when the row has more than
`idx` fields, insert the mapped board name (or the raw id when
unmapped) right after position `idx`; otherwise re-join the row
unchanged. -/
def enrichRow (idx : Nat) (line : Str) : Str :=
  let fields := line.splitOn '\t'
  if idx < fields.length then
    let board_id := trimL (fields.getD idx [])
    let board_name := (assocGet BOARD_ID_NAME_MAP board_id).getD board_id
    List.intercalate ['\t'] (fields.insertIdx (idx + 1) board_name)
  else List.intercalate ['\t'] fields

/-- `merge_all_ai_tsv_results` of `src/ai.py` (lines 449–483).
`none` models the uncaught `IndexError` that `all_lines[0]` on
line 466 raises when no output contained an extractable block. -/
def merge_all_ai_tsv_results (ai_outputs : List Str) : Option Str :=
  match mergeLines false ai_outputs with
  | [] => none
  | first :: rest =>
    let deduped := first :: dedupKeepFirst [] rest
    let header_fields := first.splitOn '\t'
    if boardIdCol ∈ header_fields then
      let idx := header_fields.indexOf boardIdCol
      let header_fields2 :=
        if boardNameCol ∈ header_fields then header_fields
        else header_fields.insertIdx (idx + 1) boardNameCol
      let new_lines :=
        List.intercalate ['\t'] header_fields2 ::
          (dedupKeepFirst [] rest).map (enrichRow idx)
      some (List.intercalate ['\n'] new_lines)
    else some (List.intercalate ['\n'] deduped)

/-! ### Lemmas about the merge loop and deduplication -/

theorem mergeLines_eq_nil (outs : List Str) :
    (∀ o ∈ outs, extract_tsv_from_ai_output o = []) →
      ∀ b, mergeLines b outs = [] := by
  induction outs with
  | nil => intro _ _; rfl
  | cons o rest ih =>
    intro h b
    have ho : extract_tsv_from_ai_output o = [] := h o (by simp)
    simp only [mergeLines, ho, List.isEmpty_nil, if_pos]
    exact ih (fun p hp => h p (by simp [hp])) b

theorem mergeLines_true_eq (outs : List Str) :
    mergeLines true outs =
      (outs.map (fun o => (extract_tsv_from_ai_output o).drop 1)).flatten := by
  induction outs with
  | nil => rfl
  | cons o rest ih =>
    by_cases ho : (extract_tsv_from_ai_output o).isEmpty
    · have : extract_tsv_from_ai_output o = [] := by
        simpa [List.isEmpty_iff] using ho
      simp [mergeLines, ho, this, ih]
    · simp [mergeLines, ho, ih]

theorem mergeLines_first_block (pre post : List Str) (o : Str)
    (hpre : ∀ p ∈ pre, extract_tsv_from_ai_output p = [])
    (ho : extract_tsv_from_ai_output o ≠ []) :
    mergeLines false (pre ++ o :: post) =
      extract_tsv_from_ai_output o ++
        (post.map (fun p => (extract_tsv_from_ai_output p).drop 1)).flatten := by
  induction pre with
  | nil =>
    have ho' : ¬ (extract_tsv_from_ai_output o).isEmpty := by
      simpa [List.isEmpty_iff] using ho
    simp [mergeLines, ho', mergeLines_true_eq]
  | cons p rest ih =>
    have hp : extract_tsv_from_ai_output p = [] := hpre p (by simp)
    simp only [List.cons_append, mergeLines, hp]
    simpa using ih (fun q hq => hpre q (by simp [hq]))

theorem mem_dedupKeepFirst (seen : List Str) (xs : List Str) (y : Str) :
    y ∈ dedupKeepFirst seen xs ↔ y ∈ xs ∧ y ∉ seen := by
  induction xs generalizing seen with
  | nil => simp [dedupKeepFirst]
  | cons x rest ih =>
    by_cases hx : x ∈ seen
    · simp only [dedupKeepFirst, if_pos hx, ih]
      constructor
      · rintro ⟨hy, hn⟩; exact ⟨by simp [hy], hn⟩
      · rintro ⟨hy, hn⟩
        rcases List.mem_cons.mp hy with rfl | hy
        · exact absurd hx hn
        · exact ⟨hy, hn⟩
    · simp only [dedupKeepFirst, if_neg hx, List.mem_cons, ih]
      constructor
      · rintro (rfl | ⟨hy, hn⟩)
        · exact ⟨Or.inl rfl, hx⟩
        · exact ⟨Or.inr hy, fun hc => hn (Or.inr hc)⟩
      · rintro ⟨rfl | hy, hn⟩
        · exact Or.inl rfl
        · by_cases hyx : y = x
          · exact Or.inl hyx
          · exact Or.inr ⟨hy, by simp [hyx, hn]⟩

theorem dedupKeepFirst_sublist (seen : List Str) (xs : List Str) :
    (dedupKeepFirst seen xs).Sublist xs := by
  induction xs generalizing seen with
  | nil => simp [dedupKeepFirst]
  | cons x rest ih =>
    by_cases hx : x ∈ seen
    · simp only [dedupKeepFirst, if_pos hx]
      exact (ih seen).cons x
    · simp only [dedupKeepFirst, if_neg hx]
      exact (ih (x :: seen)).cons₂ x

theorem dedupKeepFirst_nodup (seen : List Str) (xs : List Str) :
    (dedupKeepFirst seen xs).Nodup := by
  induction xs generalizing seen with
  | nil => simp [dedupKeepFirst]
  | cons x rest ih =>
    by_cases hx : x ∈ seen
    · simpa [dedupKeepFirst, if_pos hx] using ih seen
    · simp only [dedupKeepFirst, if_neg hx]
      refine List.nodup_cons.mpr ⟨?_, ih (x :: seen)⟩
      intro hc
      exact ((mem_dedupKeepFirst _ _ _).mp hc).2 (by simp)

/-! ### Claims C1, C4 about `merge_all_ai_tsv_results` -/

/-- C1: for every list of worker outputs in which no output contains an
extractable tabular block, `merge_all_ai_tsv_results` does NOT return a
normal value: `all_lines[0]` on line 466 of `src/ai.py` raises an
uncaught `IndexError` (modelled as `none`), contradicting the claim
that the header-only table is returned rather than thrown. -/
theorem c1_merge_no_blocks_raises (outs : List Str)
    (h : ∀ o ∈ outs, extract_tsv_from_ai_output o = []) :
    merge_all_ai_tsv_results outs = none := by
  unfold merge_all_ai_tsv_results
  rw [mergeLines_eq_nil outs h false]

/-- Witness for C1 at the concrete worker-output list
`["分析过程中发生错误，没有输出。"]`, which has no extractable block. -/
theorem c1_merge_no_blocks_raises_witness :
    (∀ o ∈ [("分析过程中发生错误，没有输出。").toList],
        extract_tsv_from_ai_output o = []) ∧
      merge_all_ai_tsv_results [("分析过程中发生错误，没有输出。").toList] = none :=
  ⟨by decide, c1_merge_no_blocks_raises _ (by decide)⟩

/-- First worker output of the concrete C4 merge instance: a fenced
block with header `H1 H2`, a unique row and a shared row. -/
def c4outA : Str := ("```tsv\nH1\tH2\nr1\tx\nshared\ty\n```").toList

/-- Second worker output of the concrete C4 merge instance: same
header, the shared row and another unique row. -/
def c4outB : Str := ("```tsv\nH1\tH2\nshared\ty\nr2\tz\n```").toList

/-- Expected merged table for the concrete C4 instance: one header and
exactly the 3 distinct data rows in first-seen order. -/
def c4merged : Str := ("H1\tH2\nr1\tx\nshared\ty\nr2\tz").toList

/-- C4: the header of the first output with an extractable block leads
the merged line list; every later block contributes only its lines
minus the first (its own header), concatenated in first-seen order;
deduplication keeps a duplicate-free, order-preserving (sublist)
selection with the same members; and the concrete two-output instance
sharing one data row merges to exactly 3 data rows in first-seen
order. -/
theorem c4_merge_header_order_dedup (pre post : List Str) (o : Str)
    (rows : List Str)
    (hpre : ∀ p ∈ pre, extract_tsv_from_ai_output p = [])
    (ho : extract_tsv_from_ai_output o ≠ []) :
    mergeLines false (pre ++ o :: post) =
        extract_tsv_from_ai_output o ++
          (post.map (fun p => (extract_tsv_from_ai_output p).drop 1)).flatten ∧
      (dedupKeepFirst [] rows).Sublist rows ∧
      (dedupKeepFirst [] rows).Nodup ∧
      (∀ x, x ∈ dedupKeepFirst [] rows ↔ x ∈ rows) ∧
      merge_all_ai_tsv_results [c4outA, c4outB] = some c4merged := by
  refine ⟨mergeLines_first_block pre post o hpre ho,
    dedupKeepFirst_sublist _ _, dedupKeepFirst_nodup _ _, ?_, ?_⟩
  · intro x
    simpa using mem_dedupKeepFirst [] rows x
  · decide

/-- Witness for C4 at the concrete instance `pre = []`,
`o = c4outA`, `post = [c4outB]`, `rows` with one duplicate. -/
theorem c4_merge_header_order_dedup_witness :
    ((∀ p ∈ ([] : List Str), extract_tsv_from_ai_output p = []) ∧
        extract_tsv_from_ai_output c4outA ≠ []) ∧
      (mergeLines false ([] ++ c4outA :: [c4outB]) =
          extract_tsv_from_ai_output c4outA ++
            ([c4outB].map
              (fun p => (extract_tsv_from_ai_output p).drop 1)).flatten ∧
        (dedupKeepFirst [] [("a").toList, ("a").toList]).Sublist
            [("a").toList, ("a").toList] ∧
        (dedupKeepFirst [] [("a").toList, ("a").toList]).Nodup ∧
        (∀ x, x ∈ dedupKeepFirst [] [("a").toList, ("a").toList] ↔
            x ∈ [("a").toList, ("a").toList]) ∧
        merge_all_ai_tsv_results [c4outA, c4outB] = some c4merged) :=
  ⟨⟨by simp, by decide⟩,
    c4_merge_header_order_dedup [] [c4outB] c4outA
      [("a").toList, ("a").toList] (by simp) (by decide)⟩

/-! ### Claim C2: board-name enrichment -/

theorem splitOnP_forall_not (p : Char → Bool) (l : Str) :
    ∀ piece ∈ l.splitOnP p, ∀ x ∈ piece, ¬ p x := by
  induction l with
  | nil =>
    intro piece hp x hx
    rw [List.splitOnP_nil] at hp
    simp only [List.mem_singleton] at hp
    subst hp
    simp at hx
  | cons c t ih =>
    intro piece hp x hx
    rw [List.splitOnP_cons] at hp
    by_cases hc : p c
    · rw [if_pos hc] at hp
      rcases List.mem_cons.mp hp with rfl | hp
      · simp at hx
      · exact ih piece hp x hx
    · rw [if_neg hc] at hp
      rcases hps : t.splitOnP p with _ | ⟨h0, rest⟩
      · exact absurd hps (List.splitOnP_ne_nil p t)
      · rw [hps] at hp
        simp only [List.modifyHead] at hp
        rcases List.mem_cons.mp hp with rfl | hp
        · rcases List.mem_cons.mp hx with rfl | hx
          · exact hc
          · exact ih h0 (by rw [hps]; exact List.mem_cons_self _ _) x hx
        · exact ih piece (by rw [hps]; exact List.mem_cons_of_mem _ hp) x hx

theorem sep_not_mem_splitOn (a : Char) (l : Str) (piece : Str)
    (hp : piece ∈ l.splitOn a) : a ∉ piece := by
  intro ha
  have h := splitOnP_forall_not (· == a) l piece (by simpa [List.splitOn] using hp) a ha
  simp at h

theorem assocGet_eq_some (m : List (Str × Str)) (k v : Str)
    (h : assocGet m k = some v) : (k, v) ∈ m := by
  induction m with
  | nil => simp [assocGet] at h
  | cons kv rest ih =>
    obtain ⟨k0, v0⟩ := kv
    by_cases hk : k0 = k
    · rw [assocGet, if_pos hk] at h
      obtain rfl : v0 = v := by simpa using h
      subst hk
      simp
    · rw [assocGet, if_neg hk] at h
      exact List.mem_cons_of_mem _ (ih h)

theorem boardMap_vals_no_tab :
    ∀ kv ∈ BOARD_ID_NAME_MAP, '\t' ∉ kv.2 := by decide

theorem mem_trimL (s : Str) (x : Char) (h : x ∈ trimL s) : x ∈ s := by
  unfold trimL at h
  have h1 : x ∈ s.dropWhile isWs :=
    ((List.rdropWhile_prefix isWs (s.dropWhile isWs)).sublist).mem h
  exact ((List.dropWhile_suffix isWs).sublist).mem h1

theorem enrichRow_splitOn (idx : Nat) (r : Str)
    (h : idx < (r.splitOn '\t').length) :
    (enrichRow idx r).splitOn '\t' =
      (r.splitOn '\t').insertIdx (idx + 1)
        ((assocGet BOARD_ID_NAME_MAP
            (trimL ((r.splitOn '\t').getD idx []))).getD
          (trimL ((r.splitOn '\t').getD idx []))) := by
  unfold enrichRow
  rw [if_pos h]
  have hgd : (r.splitOn '\t').getD idx [] ∈ r.splitOn '\t' := by
    rw [List.getD_eq_getElem _ _ h]
    exact List.getElem_mem h
  have hbid : '\t' ∉ trimL ((r.splitOn '\t').getD idx []) := fun hc =>
    sep_not_mem_splitOn '\t' r _ hgd (mem_trimL _ _ hc)
  have hname : '\t' ∉
      (assocGet BOARD_ID_NAME_MAP
          (trimL ((r.splitOn '\t').getD idx []))).getD
        (trimL ((r.splitOn '\t').getD idx [])) := by
    cases hag : assocGet BOARD_ID_NAME_MAP (trimL ((r.splitOn '\t').getD idx [])) with
    | none => simpa using hbid
    | some v =>
      have := boardMap_vals_no_tab _ (assocGet_eq_some _ _ _ hag)
      simpa using this
  apply List.splitOn_intercalate
  · intro f hf
    rw [List.mem_insertIdx (by omega)] at hf
    rcases hf with rfl | hf
    · exact hname
    · exact sep_not_mem_splitOn '\t' r f hf
  · intro hc
    have := congrArg List.length hc
    rw [List.length_insertIdx _ _ (by omega)] at this
    simp at this

theorem enrichRow_short (idx : Nat) (r : Str)
    (h : ¬ idx < (r.splitOn '\t').length) : enrichRow idx r = r := by
  unfold enrichRow
  rw [if_neg h]
  exact List.intercalate_splitOn r '\t'

/-- C2 counterexample: two concrete merges violating the claim as
stated. In the first, the extracted block is header `A 板块ID` plus a
one-field data row `short`; the merged table's data row keeps exactly
one field, so its board-name field is NOT populated (the row is passed
through unchanged because `len(fields) > idx` fails). In the second,
the canonical header already contains `板块名称`, and no derived column
is inserted into the header — yet the data row still receives an
inserted field, so header and row widths disagree (3 vs 4). -/
theorem c2_counterexample :
    merge_all_ai_tsv_results [("```tsv\nA\t板块ID\nshort\n```").toList] =
        some (("A\t板块ID\t板块名称\nshort").toList) ∧
      (("A\t板块ID\t板块名称\nshort").toList.splitOn '\n').length = 2 ∧
      ((("short").toList).splitOn '\t').length = 1 ∧
      merge_all_ai_tsv_results
          [("```tsv\nA\t板块ID\t板块名称\nfoo\t9\tq\n```").toList] =
        some (("A\t板块ID\t板块名称\nfoo\t9\t现代金银贵金属币\tq").toList) ∧
      ((("A\t板块ID\t板块名称").toList).splitOn '\t').length = 3 ∧
      ((("foo\t9\t现代金银贵金属币\tq").toList).splitOn '\t').length = 4 := by
  refine ⟨by decide, by decide, by decide, by decide, by decide, by decide⟩

/-- C2 (amended): when the merged table is non-empty and its canonical
header contains the board-identifier column `板块ID` at index `idx`,
the merge inserts the derived `板块名称` column immediately after it
UNLESS the header already contains `板块名称`; and a board-name field
is inserted (mapped name when the raw trimmed identifier is in
`BOARD_ID_NAME_MAP`, the identifier itself when unmapped) immediately
after position `idx` of every data row that has more than `idx`
fields, while shorter data rows are passed through unchanged. -/
theorem c2_board_name_enrichment (outs : List Str) (first : Str)
    (rest : List Str)
    (hm : mergeLines false outs = first :: rest)
    (hid : boardIdCol ∈ first.splitOn '\t') :
    let idx := (first.splitOn '\t').indexOf boardIdCol
    merge_all_ai_tsv_results outs =
        some (List.intercalate ['\n']
          (List.intercalate ['\t']
              (if boardNameCol ∈ first.splitOn '\t' then first.splitOn '\t'
               else (first.splitOn '\t').insertIdx (idx + 1) boardNameCol) ::
            (dedupKeepFirst [] rest).map (enrichRow idx))) ∧
      (∀ r ∈ dedupKeepFirst [] rest,
          idx < (r.splitOn '\t').length →
            (enrichRow idx r).splitOn '\t' =
              (r.splitOn '\t').insertIdx (idx + 1)
                ((assocGet BOARD_ID_NAME_MAP
                    (trimL ((r.splitOn '\t').getD idx []))).getD
                  (trimL ((r.splitOn '\t').getD idx [])))) ∧
      (∀ r ∈ dedupKeepFirst [] rest,
          ¬ idx < (r.splitOn '\t').length → enrichRow idx r = r) := by
  intro idx
  refine ⟨?_, fun r _ hr => enrichRow_splitOn idx r hr,
    fun r _ hr => enrichRow_short idx r hr⟩
  unfold merge_all_ai_tsv_results
  rw [hm]
  simp only [if_pos hid]

/-- Worker output for the C2 witness. -/
def c2wOut : Str := ("```tsv\nA\t板块ID\nfoo\t9\n```").toList

/-- Canonical header of the C2 witness instance. -/
def c2wHeader : Str := ("A\t板块ID").toList

/-- Data row of the C2 witness instance. -/
def c2wRow : Str := ("foo\t9").toList

/-- Witness for the amended C2 at the concrete one-output instance
whose header is `A 板块ID` and whose single data row maps board id 9
to its Chinese name. -/
theorem c2_board_name_enrichment_witness :
    (mergeLines false [c2wOut] = c2wHeader :: [c2wRow] ∧
        boardIdCol ∈ c2wHeader.splitOn '\t') ∧
      (let idx := (c2wHeader.splitOn '\t').indexOf boardIdCol;
        merge_all_ai_tsv_results [c2wOut] =
            some (List.intercalate ['\n']
              (List.intercalate ['\t']
                  (if boardNameCol ∈ c2wHeader.splitOn '\t' then
                    c2wHeader.splitOn '\t'
                   else (c2wHeader.splitOn '\t').insertIdx (idx + 1)
                     boardNameCol) ::
                (dedupKeepFirst [] [c2wRow]).map (enrichRow idx))) ∧
          (∀ r ∈ dedupKeepFirst [] [c2wRow],
              idx < (r.splitOn '\t').length →
                (enrichRow idx r).splitOn '\t' =
                  (r.splitOn '\t').insertIdx (idx + 1)
                    ((assocGet BOARD_ID_NAME_MAP
                        (trimL ((r.splitOn '\t').getD idx []))).getD
                      (trimL ((r.splitOn '\t').getD idx [])))) ∧
          (∀ r ∈ dedupKeepFirst [] [c2wRow],
              ¬ idx < (r.splitOn '\t').length → enrichRow idx r = r)) :=
  ⟨⟨by decide, by decide⟩,
    c2_board_name_enrichment [c2wOut] c2wHeader [c2wRow] (by decide) (by decide)⟩

/-! ### Claim C3: batch partitioning of `split_and_analyze_by_board`

`pd.read_csv` rows carry the TSV fields written by the scraper; the
partitioner touches only `board_id`.  `df.groupby('board_id')` yields,
for each occurring key, the rows with that key in their original
order; the slicing loop is
`[group.iloc[i*batch_size:(i+1)*batch_size] for i in range(num_batches)]`
with `num_batches = math.ceil(total / batch_size)` (the float division
inside `math.ceil` is idealised as exact rational division). -/

/-- One record of the scraper's TSV output, as re-read by
`split_and_analyze_by_board`. -/
structure DataRow where
  board_id : Nat
  page : Nat
  post_id : Str
  title : Str
  author : Str
  date : Str
  replies : Int
  views : Int
deriving DecidableEq, Repr

/-- The rows of one `groupby('board_id')` group, in original order. -/
def boardGroup (rows : List DataRow) (b : Nat) : List DataRow :=
  rows.filter (fun r => r.board_id = b)

/-- `math.ceil(n / B)` for naturals (exact ceiling division). -/
def ceilPy (n B : Nat) : Nat := (n + B - 1) / B

/-- The batch list `[g.iloc[i*B:(i+1)*B] for i in range(ceil(|g|/B))]`. -/
def batchSlices (g : List DataRow) (B : Nat) : List (List DataRow) :=
  (List.range (ceilPy g.length B)).map (fun i => (g.drop (i * B)).take B)

theorem ceilPy_zero (B : Nat) : ceilPy 0 B = 0 := by
  unfold ceilPy
  rcases Nat.eq_zero_or_pos B with rfl | hB
  · rfl
  · exact Nat.div_eq_of_lt (by omega)

theorem ceilPy_succ (n B : Nat) (hB : 1 ≤ B) (hn : 1 ≤ n) :
    ceilPy n B = ceilPy (n - B) B + 1 := by
  unfold ceilPy
  have h1 : n + B - 1 = (n - 1) + B := by omega
  rw [h1, Nat.add_div_right _ (by omega)]
  rcases Nat.le_total B n with hBn | hnB
  · have h2 : n - B + B - 1 = n - 1 := by omega
    rw [h2]
  · have h2 : n - B = 0 := by omega
    rw [h2]
    have h3 : (0 + B - 1) / B = 0 := Nat.div_eq_of_lt (by omega)
    have h4 : (n - 1) / B = 0 := Nat.div_eq_of_lt (by omega)
    omega

theorem batchSlices_nil (B : Nat) : batchSlices [] B = [] := by
  simp [batchSlices, ceilPy_zero]

theorem batchSlices_cons (g : List DataRow) (B : Nat) (hB : 1 ≤ B)
    (hg : g ≠ []) :
    batchSlices g B = g.take B :: batchSlices (g.drop B) B := by
  unfold batchSlices
  have hl : 1 ≤ g.length := by
    cases g with
    | nil => exact absurd rfl hg
    | cons a t => simp
  rw [List.length_drop, ceilPy_succ g.length B hB hl, List.range_succ_eq_map]
  simp only [List.map_cons, Nat.zero_mul, List.drop_zero, List.map_map]
  congr 1
  · apply List.map_congr_left
    intro i _
    simp only [Function.comp_apply]
    rw [List.drop_drop]
    congr 2
    rw [Nat.succ_mul, Nat.mul_comm i B]
    omega

theorem batchSlices_flatten (g : List DataRow) (B : Nat) (hB : 1 ≤ B) :
    (batchSlices g B).flatten = g := by
  generalize hn : g.length = n
  induction n using Nat.strong_induction_on generalizing g with
  | _ n ih =>
    cases g with
    | nil => simp [batchSlices_nil]
    | cons a t =>
      rw [batchSlices_cons _ _ hB (by simp), List.flatten_cons]
      have hlt : ((a :: t).drop B).length < n := by
        rw [List.length_drop]
        subst hn
        simp only [List.length_cons]
        omega
      rw [ih _ hlt _ rfl]
      exact List.take_append_drop B (a :: t)

theorem batchSlices_sizes (g : List DataRow) (B : Nat) :
    ∀ c ∈ batchSlices g B, c.length ≤ B := by
  intro c hc
  unfold batchSlices at hc
  rw [List.mem_map] at hc
  obtain ⟨i, _, rfl⟩ := hc
  calc ((g.drop (i * B)).take B).length ≤ B := by
        rw [List.length_take]
        omega

theorem batchSlices_full_except_last (g : List DataRow) (B : Nat)
    (hB : 1 ≤ B) (i : Nat) (hi : i + 1 < (batchSlices g B).length) :
    ((batchSlices g B).getD i []).length = B := by
  have hlen : (batchSlices g B).length = ceilPy g.length B := by
    unfold batchSlices
    simp
  have hi2 : i < (batchSlices g B).length := by omega
  have hig : ((batchSlices g B).getD i []) = (g.drop (i * B)).take B := by
    rw [List.getD_eq_getElem _ _ hi2]
    unfold batchSlices
    simp
  rw [hig, List.length_take, List.length_drop]
  have h2 : i + 2 ≤ ceilPy g.length B := by omega
  unfold ceilPy at h2
  have h3 : (i + 2) * B ≤ g.length + B - 1 :=
    (Nat.le_div_iff_mul_le (by omega)).mp h2
  have hexp : (i + 2) * B = i * B + 2 * B := by ring
  omega

/-- C3: grouping by board keeps each group an order-preserving
selection of the input consisting exactly of that board's rows, and
slicing a group of size N with batch size B ≥ 1 yields exactly
⌈N/B⌉ consecutive batches, each of length at most B, all but the last
of length exactly B, whose concatenation reproduces the group. -/
theorem c3_partitioning (rows : List DataRow) (B b : Nat) (hB : 1 ≤ B) :
    (boardGroup rows b).Sublist rows ∧
      (∀ r, r ∈ boardGroup rows b ↔ r ∈ rows ∧ r.board_id = b) ∧
      (batchSlices (boardGroup rows b) B).length =
        ceilPy (boardGroup rows b).length B ∧
      (∀ c ∈ batchSlices (boardGroup rows b) B, c.length ≤ B) ∧
      (batchSlices (boardGroup rows b) B).flatten = boardGroup rows b ∧
      (∀ i, i + 1 < (batchSlices (boardGroup rows b) B).length →
          ((batchSlices (boardGroup rows b) B).getD i []).length = B) := by
  refine ⟨List.filter_sublist _, ?_, ?_, batchSlices_sizes _ _,
    batchSlices_flatten _ _ hB,
    fun i hi => batchSlices_full_except_last _ _ hB i hi⟩
  · intro r
    simp [boardGroup, List.mem_filter]
  · unfold batchSlices
    simp

/-- Concrete rows for the C3 witness: five records on board 1 and one
on board 2, interleaved. -/
def c3rows : List DataRow :=
  [⟨1, 1, ("11").toList, ("t1").toList, [], [], 0, 0⟩,
   ⟨2, 1, ("21").toList, ("t2").toList, [], [], 0, 0⟩,
   ⟨1, 1, ("12").toList, ("t3").toList, [], [], 0, 0⟩,
   ⟨1, 2, ("13").toList, ("t4").toList, [], [], 0, 0⟩,
   ⟨1, 2, ("14").toList, ("t5").toList, [], [], 0, 0⟩,
   ⟨1, 3, ("15").toList, ("t6").toList, [], [], 0, 0⟩]

/-- Witness for C3 at `c3rows`, batch size 2, board 1 (a group of 5
rows split into 3 batches). -/
theorem c3_partitioning_witness :
    1 ≤ 2 ∧
      ((boardGroup c3rows 1).Sublist c3rows ∧
        (∀ r, r ∈ boardGroup c3rows 1 ↔ r ∈ c3rows ∧ r.board_id = 1) ∧
        (batchSlices (boardGroup c3rows 1) 2).length =
          ceilPy (boardGroup c3rows 1).length 2 ∧
        (∀ c ∈ batchSlices (boardGroup c3rows 1) 2, c.length ≤ 2) ∧
        (batchSlices (boardGroup c3rows 1) 2).flatten = boardGroup c3rows 1 ∧
        (∀ i, i + 1 < (batchSlices (boardGroup c3rows 1) 2).length →
            ((batchSlices (boardGroup c3rows 1) 2).getD i []).length = 2)) :=
  ⟨by decide, c3_partitioning c3rows 2 1 (by decide)⟩

/-! ### Claims C6, C7: the analysis worker pool

`analyze_batch` (lines 503–518 of `src/ai.py`) calls
`analyzer._get_ai_insights(batch_df)` up to `max_retry` times.  One
attempt is modelled as `Except Unit (Option Str)`: `Except.error`
models a raised exception (caught on line 515), `Except.ok none`
models a `None` return, `Except.ok (some s)` a string return.  The
oracle is indexed by the attempt number (1-based), matching
`for attempt in range(1, max_retry+1)`. -/

/-- Python `ai_result and not ai_result.strip().startswith("AI分析失败")`:
the acceptance test of lines 509 and 539. -/
def acceptableResult (r : Str) : Bool :=
  !r.isEmpty && !startsWithL failMarker (trimL r)

/-- One oracle attempt that the retry loop rejects: an exception, a
`None` return, or an unacceptable string. -/
def badAttempt (e : Except Unit (Option Str)) : Prop :=
  match e with
  | .error _ => True
  | .ok none => True
  | .ok (some s) => acceptableResult s = false

/-- The retry loop of `analyze_batch`: `left` attempts remain, the
next attempt has 1-based number `attempt`.  Returns the accepted
result (`none` models the final `return None` after exhausting all
retries) paired with the number of oracle invocations made. -/
def analyzeBatchAux (oracle : Nat → Except Unit (Option Str)) :
    Nat → Nat → Option Str × Nat
  | 0, _ => (none, 0)
  | left + 1, attempt =>
    match oracle attempt with
    | .error _ =>
      let r := analyzeBatchAux oracle left (attempt + 1)
      (r.1, r.2 + 1)
    | .ok none =>
      let r := analyzeBatchAux oracle left (attempt + 1)
      (r.1, r.2 + 1)
    | .ok (some s) =>
      if acceptableResult s then (some s, 1)
      else
        let r := analyzeBatchAux oracle left (attempt + 1)
        (r.1, r.2 + 1)

/-- `analyze_batch` of `src/ai.py`: run the retry loop for
`max_retry` attempts starting at attempt 1. -/
def analyze_batch (oracle : Nat → Except Unit (Option Str))
    (max_retry : Nat) : Option Str × Nat :=
  analyzeBatchAux oracle max_retry 1

/-- The collection step on line 539 of `src/ai.py`:
`[r for r in batch_results if r and not r.strip().startswith("AI分析失败")]`. -/
def collectValid (results : List (Option Str)) : List Str :=
  results.filterMap (fun o =>
    match o with
    | some r => if acceptableResult r then some r else none
    | none => none)

theorem analyzeBatchAux_calls_le (oracle : Nat → Except Unit (Option Str)) :
    ∀ left attempt, (analyzeBatchAux oracle left attempt).2 ≤ left := by
  intro left
  induction left with
  | zero => intro attempt; simp [analyzeBatchAux]
  | succ n ih =>
    intro attempt
    unfold analyzeBatchAux
    cases oracle attempt with
    | error e => simpa using ih (attempt + 1)
    | ok o =>
      cases o with
      | none => simpa using ih (attempt + 1)
      | some s =>
        by_cases hs : acceptableResult s
        · simp [hs]
        · simpa [hs] using ih (attempt + 1)

theorem analyzeBatchAux_acceptable (oracle : Nat → Except Unit (Option Str)) :
    ∀ left attempt r, (analyzeBatchAux oracle left attempt).1 = some r →
      acceptableResult r = true := by
  intro left
  induction left with
  | zero => intro attempt r h; simp [analyzeBatchAux] at h
  | succ n ih =>
    intro attempt r h
    unfold analyzeBatchAux at h
    cases hoa : oracle attempt with
    | error e =>
      rw [hoa] at h
      exact ih (attempt + 1) r (by simpa using h)
    | ok o =>
      cases o with
      | none =>
        rw [hoa] at h
        exact ih (attempt + 1) r (by simpa using h)
      | some s =>
        rw [hoa] at h
        by_cases hs : acceptableResult s
        · simp only [hs, if_true] at h
          obtain rfl : s = r := by simpa using h
          exact hs
        · simp only [hs, if_false, Bool.false_eq_true] at h
          exact ih (attempt + 1) r (by simpa using h)

theorem analyzeBatchAux_all_bad (oracle : Nat → Except Unit (Option Str)) :
    ∀ left attempt,
      (∀ k, attempt ≤ k → k < attempt + left → badAttempt (oracle k)) →
      analyzeBatchAux oracle left attempt = (none, left) := by
  intro left
  induction left with
  | zero => intro attempt _; simp [analyzeBatchAux]
  | succ n ih =>
    intro attempt hbad
    have h0 : badAttempt (oracle attempt) := hbad attempt (Nat.le_refl _) (by omega)
    have hrec : analyzeBatchAux oracle n (attempt + 1) = (none, n) :=
      ih (attempt + 1) (fun k hk1 hk2 => hbad k (by omega) (by omega))
    unfold analyzeBatchAux
    cases hoa : oracle attempt with
    | error e => simp [hrec]
    | ok o =>
      cases o with
      | none => simp [hrec]
      | some s =>
        rw [hoa] at h0
        unfold badAttempt at h0
        simp [h0, hrec]

theorem analyzeBatchAux_first_good (oracle : Nat → Except Unit (Option Str)) :
    ∀ left attempt j r, attempt ≤ j → j < attempt + left →
      (∀ k, attempt ≤ k → k < j → badAttempt (oracle k)) →
      oracle j = .ok (some r) → acceptableResult r = true →
      analyzeBatchAux oracle left attempt = (some r, j - attempt + 1) := by
  intro left
  induction left with
  | zero => intro attempt j r h1 h2; omega
  | succ n ih =>
    intro attempt j r h1 h2 hbad hj hr
    by_cases hja : j = attempt
    · subst hja
      unfold analyzeBatchAux
      rw [hj]
      simp [hr]
    · have h0 : badAttempt (oracle attempt) :=
        hbad attempt (Nat.le_refl _) (by omega)
      have hrec : analyzeBatchAux oracle n (attempt + 1) =
          (some r, j - (attempt + 1) + 1) :=
        ih (attempt + 1) j r (by omega) (by omega)
          (fun k hk1 hk2 => hbad k (by omega) hk2) hj hr
      unfold analyzeBatchAux
      have hsub : j - (attempt + 1) + 1 + 1 = j - attempt + 1 := by omega
      cases hoa : oracle attempt with
      | error e => simp [hrec, hsub]
      | ok o =>
        cases o with
        | none => simp [hrec, hsub]
        | some s =>
          rw [hoa] at h0
          unfold badAttempt at h0
          simp [h0, hrec, hsub]

/-- The result-gathering loop of `split_and_analyze_by_board`
(lines 530–537 of `src/ai.py`): `batch_results = [None] * num_batches`
then, for each completed future in completion order, write its result
into the slot of its submission index (`batch_results[idx] = result`).
`res idx` is the value `future.result()` delivers for batch `idx`
(`none` when the future raised, leaving the slot untouched by the
`except` branch — indistinguishable from writing `None`). -/
def gatherResults (n : Nat) (res : Nat → Option Str)
    (order : List Nat) : List (Option Str) :=
  order.foldl (fun acc idx => acc.set idx (res idx)) (List.replicate n none)

theorem foldl_set_length (res : Nat → Option Str) (order : List Nat) :
    ∀ init : List (Option Str),
      (order.foldl (fun acc idx => acc.set idx (res idx)) init).length =
        init.length := by
  induction order with
  | nil => intro init; rfl
  | cons o rest ih =>
    intro init
    simp only [List.foldl_cons]
    rw [ih]
    simp

theorem foldl_set_getElem (res : Nat → Option Str) (order : List Nat) :
    ∀ (init : List (Option Str)) (i : Nat),
      (order.foldl (fun acc idx => acc.set idx (res idx)) init)[i]? =
        if i ∈ order ∧ i < init.length then some (res i) else init[i]? := by
  induction order with
  | nil =>
    intro init i
    simp
  | cons o rest ih =>
    intro init i
    simp only [List.foldl_cons]
    rw [ih]
    simp only [List.getElem?_set, List.length_set, List.mem_cons]
    by_cases hio : o = i
    · subst hio
      by_cases hlen : o < init.length
      · by_cases hmem : o ∈ rest <;> simp [hmem, hlen]
      · by_cases hmem : o ∈ rest <;>
          simp [hmem, hlen, List.getElem?_eq_none (by omega : init.length ≤ o)]
    · have hne : ¬ i = o := fun hc => hio hc.symm
      by_cases hmem : i ∈ rest <;> by_cases hlen : i < init.length <;>
        simp [hmem, hlen, hio, hne]

theorem gatherResults_eq (n : Nat) (res : Nat → Option Str)
    (order : List Nat) (hperm : order.Perm (List.range n)) :
    gatherResults n res order = (List.range n).map res := by
  apply List.ext_getElem?
  intro i
  unfold gatherResults
  rw [foldl_set_getElem]
  simp only [List.length_replicate]
  by_cases hi : i < n
  · have hmem : i ∈ order := hperm.mem_iff.mpr (by simpa using hi)
    simp [hmem, hi]
  · have hmem : i ∉ order := fun hc => hi (by simpa using hperm.mem_iff.mp hc)
    simp only [hmem, false_and, if_false]
    rw [List.getElem?_eq_none (by simpa using hi),
      List.getElem?_eq_none (by simp; omega)]

/-- Decidability of a rejected attempt, for concrete witnesses. -/
instance badAttemptDec (e : Except Unit (Option Str)) :
    Decidable (badAttempt e) :=
  match e with
  | .error _ => isTrue trivial
  | .ok none => isTrue trivial
  | .ok (some s) => inferInstanceAs (Decidable (acceptableResult s = false))

/-- C6: the retry loop of `analyze_batch` invokes the external
extraction oracle at most `max_retry` times; any returned result
passed the acceptance test (non-empty, no `AI分析失败` prefix after
stripping); if every attempt is rejected the batch yields `None` after
exactly `max_retry` invocations and the collection step of line 539
drops it from the merge input; and if the first accepted attempt is
attempt `j ≤ max_retry` the loop returns that result after exactly `j`
invocations and the collection step keeps it for the merge. -/
theorem c6_retry_policy (oracle : Nat → Except Unit (Option Str))
    (max_retry : Nat) (j : Nat) (r : Str) (pre post : List (Option Str)) :
    (analyze_batch oracle max_retry).2 ≤ max_retry ∧
      (∀ s, (analyze_batch oracle max_retry).1 = some s →
          acceptableResult s = true) ∧
      ((∀ k, 1 ≤ k → k ≤ max_retry → badAttempt (oracle k)) →
        analyze_batch oracle max_retry = (none, max_retry) ∧
          collectValid (pre ++ none :: post) =
            collectValid pre ++ collectValid post) ∧
      (1 ≤ j → j ≤ max_retry →
        (∀ k, 1 ≤ k → k < j → badAttempt (oracle k)) →
        oracle j = .ok (some r) → acceptableResult r = true →
        analyze_batch oracle max_retry = (some r, j) ∧
          collectValid (pre ++ some r :: post) =
            collectValid pre ++ r :: collectValid post) := by
  refine ⟨analyzeBatchAux_calls_le oracle max_retry 1,
    fun s hs => analyzeBatchAux_acceptable oracle max_retry 1 s hs, ?_, ?_⟩
  · intro hbad
    constructor
    · exact analyzeBatchAux_all_bad oracle max_retry 1
        (fun k hk1 hk2 => hbad k hk1 (by omega))
    · simp [collectValid, List.filterMap_append]
  · intro hj1 hjm hbad hjok hjacc
    constructor
    · have h := analyzeBatchAux_first_good oracle max_retry 1 j r hj1
        (by omega) hbad hjok hjacc
      have hsub : j - 1 + 1 = j := by omega
      rw [hsub] at h
      exact h
    · simp [collectValid, List.filterMap_append, hjacc]

/-- Oracle for the C6 witness: an exception on attempt 1, a
failure-marked string on attempt 2, an acceptable table on attempt 3 —
the end-to-end scenario of spec §8 with max retries 3. -/
def c6oracle : Nat → Except Unit (Option Str) := fun k =>
  if k = 1 then .error ()
  else if k = 2 then .ok (some (("AI分析失败：响应无效").toList))
  else .ok (some (("原始标题文本\t板块ID\nx\t9").toList))

/-- Witness for C6: with `c6oracle` and max retries 3, the 3rd attempt
succeeds, exactly 3 invocations happen, and the result is kept for the
merge input. -/
theorem c6_retry_policy_witness :
    ((analyze_batch c6oracle 3).2 ≤ 3 ∧
      (∀ s, (analyze_batch c6oracle 3).1 = some s →
          acceptableResult s = true) ∧
      ((∀ k, 1 ≤ k → k ≤ 3 → badAttempt (c6oracle k)) →
        analyze_batch c6oracle 3 = (none, 3) ∧
          collectValid ([] ++ none :: []) =
            collectValid [] ++ collectValid []) ∧
      (1 ≤ 3 → 3 ≤ 3 →
        (∀ k, 1 ≤ k → k < 3 → badAttempt (c6oracle k)) →
        c6oracle 3 = .ok (some (("原始标题文本\t板块ID\nx\t9").toList)) →
        acceptableResult (("原始标题文本\t板块ID\nx\t9").toList) = true →
        analyze_batch c6oracle 3 =
            (some (("原始标题文本\t板块ID\nx\t9").toList), 3) ∧
          collectValid ([] ++ some (("原始标题文本\t板块ID\nx\t9").toList) :: []) =
            collectValid [] ++
              ("原始标题文本\t板块ID\nx\t9").toList :: collectValid [])) ∧
      (analyze_batch c6oracle 3 =
        (some (("原始标题文本\t板块ID\nx\t9").toList), 3)) :=
  ⟨c6_retry_policy c6oracle 3 3 (("原始标题文本\t板块ID\nx\t9").toList) [] [],
    ((c6_retry_policy c6oracle 3 3 (("原始标题文本\t板块ID\nx\t9").toList)
        [] []).2.2.2 (by decide) (by decide) (by decide) (by rfl)
      (by decide)).1⟩

/-- C7: whatever order the concurrently executing batch workers
complete in (any permutation of the submission indices), the gathered
per-board result list equals the submission-indexed list
`(range n).map res`, and so does the filtered sequence handed to the
merger. -/
theorem c7_pool_restores_submission_order (n : Nat) (res : Nat → Option Str)
    (order : List Nat) (hperm : order.Perm (List.range n)) :
    gatherResults n res order = (List.range n).map res ∧
      collectValid (gatherResults n res order) =
        collectValid ((List.range n).map res) := by
  have h := gatherResults_eq n res order hperm
  exact ⟨h, by rw [h]⟩

/-- Per-batch results for the C7 witness: batch 1 raised an exception
(`none`), batches 0 and 2 returned tables. -/
def c7res : Nat → Option Str := fun i =>
  if i = 0 then some (("原始标题文本\na0").toList)
  else if i = 1 then none
  else some (("原始标题文本\na2").toList)

/-- Witness for C7 at a concrete out-of-order completion `[2, 0, 1]`
of 3 batches. -/
theorem c7_pool_restores_submission_order_witness :
    ([2, 0, 1].Perm (List.range 3)) ∧
      (gatherResults 3 c7res [2, 0, 1] = (List.range 3).map c7res ∧
        collectValid (gatherResults 3 c7res [2, 0, 1]) =
          collectValid ((List.range 3).map c7res)) :=
  ⟨by decide, c7_pool_restores_submission_order 3 c7res [2, 0, 1] (by decide)⟩

/-! ### The crawl controller of `src/测试.py`

Dates are calendar tuples (`DT`); Python `datetime` comparison is
lexicographic on (year, month, day, hour, minute, second). -/

/-- A `datetime.datetime` value (naive, second precision). -/
structure DT where
  y : Nat
  m : Nat
  d : Nat
  hh : Nat
  mi : Nat
  s : Nat
deriving DecidableEq, Repr

/-- Python `datetime` strict `<` (lexicographic). -/
def DT.ltb (a b : DT) : Bool :=
  if a.y ≠ b.y then decide (a.y < b.y)
  else if a.m ≠ b.m then decide (a.m < b.m)
  else if a.d ≠ b.d then decide (a.d < b.d)
  else if a.hh ≠ b.hh then decide (a.hh < b.hh)
  else if a.mi ≠ b.mi then decide (a.mi < b.mi)
  else decide (a.s < b.s)

/-- Python `datetime` `>=`, i.e. not `<`. -/
def DT.geb (a b : DT) : Bool := !DT.ltb a b

/-- One post dict as built by `parse_board_page` (line 354). -/
structure PostRec where
  title : Str
  date : DT
  board_id : Nat
  page : Nat
  author : Str
  replies : Int
  views : Int
  post_id : Str
deriving DecidableEq, Repr

/-- Result of crawling one board: the accepted posts (appended to
`all_recent_posts`) and the 1-based numbers of the pages fetched. -/
structure BoardScan where
  accepted : List PostRec
  fetched : List Nat
deriving DecidableEq, Repr

/-- The `oldest_post_on_page` fold of lines 424–426: first post with
the strictly smallest date. -/
def oldestOnPage (posts : List PostRec) : Option PostRec :=
  posts.foldl
    (fun o p =>
      match o with
      | none => some p
      | some q => if DT.ltb p.date q.date then some p else some q)
    none

/-- The per-board page loop of `scrape_recent_posts` (lines 404–438):
`left` pages remain out of `PAGES_PER_BOARD`, the next page is
`pageNum`.  Stops on an empty page 1 (line 414), an empty later page
(line 417), or a fully stale page (line 433); otherwise accepts the
posts dated at or after the cutoff and continues. -/
def scrapeBoardFrom (fetchPage : Nat → List PostRec) (cutoff : DT) :
    Nat → Nat → BoardScan
  | 0, _ => ⟨[], []⟩
  | left + 1, pageNum =>
    let posts := fetchPage pageNum
    if posts.isEmpty && pageNum == 1 then ⟨[], [pageNum]⟩
    else if posts.isEmpty then ⟨[], [pageNum]⟩
    else
      let acceptedHere := posts.filter (fun p => DT.geb p.date cutoff)
      let stale :=
        match oldestOnPage posts with
        | none => false
        | some q => DT.ltb q.date cutoff && acceptedHere.isEmpty
      if stale then ⟨acceptedHere, [pageNum]⟩
      else
        let r := scrapeBoardFrom fetchPage cutoff left (pageNum + 1)
        ⟨acceptedHere ++ r.accepted, pageNum :: r.fetched⟩

/-- Crawl one board: pages 1 to `pages_per_board`
(`for page_num in range(1, PAGES_PER_BOARD + 1)`). -/
def scrapeBoard (fetchPage : Nat → List PostRec) (cutoff : DT)
    (pages_per_board : Nat) : BoardScan :=
  scrapeBoardFrom fetchPage cutoff pages_per_board 1

theorem oldestOnPage_mem_aux :
    ∀ (posts : List PostRec) (o : Option PostRec) (q : PostRec),
      posts.foldl
          (fun o p =>
            match o with
            | none => some p
            | some q => if DT.ltb p.date q.date then some p else some q)
          o = some q →
        o = some q ∨ q ∈ posts := by
  intro posts
  induction posts with
  | nil =>
    intro o q h
    exact Or.inl h
  | cons p ps ih =>
    intro o q h
    simp only [List.foldl_cons] at h
    rcases ih _ q h with hstep | hmem
    · cases o with
      | none =>
        simp only at hstep
        obtain rfl : p = q := by simpa using hstep
        exact Or.inr (by simp)
      | some q0 =>
        simp only at hstep
        by_cases hlt : DT.ltb p.date q0.date
        · rw [if_pos hlt] at hstep
          obtain rfl : p = q := by simpa using hstep
          exact Or.inr (by simp)
        · rw [if_neg hlt] at hstep
          obtain rfl : q0 = q := by simpa using hstep
          exact Or.inl rfl
    · exact Or.inr (by simp [hmem])

theorem oldestOnPage_mem (posts : List PostRec) (q : PostRec)
    (h : oldestOnPage posts = some q) : q ∈ posts := by
  rcases oldestOnPage_mem_aux posts none q h with hc | hm
  · exact absurd hc (by simp)
  · exact hm

theorem foldl_oldest_isSome :
    ∀ (ps : List PostRec) (q : PostRec),
      ∃ q2, ps.foldl
          (fun o p =>
            match o with
            | none => some p
            | some q => if DT.ltb p.date q.date then some p else some q)
          (some q) = some q2 := by
  intro ps
  induction ps with
  | nil => intro q; exact ⟨q, rfl⟩
  | cons p t ih =>
    intro q
    simp only [List.foldl_cons]
    by_cases hlt : DT.ltb p.date q.date
    · simpa [hlt] using ih p
    · simpa [hlt] using ih q

theorem oldestOnPage_isSome (posts : List PostRec) (h : posts ≠ []) :
    ∃ q, oldestOnPage posts = some q := by
  cases posts with
  | nil => exact absurd rfl h
  | cons p t =>
    unfold oldestOnPage
    simpa using foldl_oldest_isSome t p

theorem filter_geb_nil (posts : List PostRec) (cutoff : DT)
    (h : ∀ p ∈ posts, DT.ltb p.date cutoff = true) :
    posts.filter (fun p => DT.geb p.date cutoff) = [] := by
  rw [List.filter_eq_nil_iff]
  intro p hp
  simp [DT.geb, h p hp]

theorem sbf_empty_page (fetchPage : Nat → List PostRec) (cutoff : DT)
    (left start : Nat) (h : fetchPage start = []) :
    scrapeBoardFrom fetchPage cutoff (left + 1) start = ⟨[], [start]⟩ := by
  unfold scrapeBoardFrom
  by_cases h1 : start = 1
  · subst h1
    simp [h]
  · simp [h, h1]

theorem sbf_stale_page (fetchPage : Nat → List PostRec) (cutoff : DT)
    (left start : Nat) (hne : fetchPage start ≠ [])
    (hst : ∀ p ∈ fetchPage start, DT.ltb p.date cutoff = true) :
    scrapeBoardFrom fetchPage cutoff (left + 1) start = ⟨[], [start]⟩ := by
  unfold scrapeBoardFrom
  obtain ⟨q, hq⟩ := oldestOnPage_isSome (fetchPage start) hne
  have hqm : q ∈ fetchPage start := oldestOnPage_mem _ _ hq
  have hacc : (fetchPage start).filter (fun p => DT.geb p.date cutoff) = [] :=
    filter_geb_nil _ _ hst
  have hemp : (fetchPage start).isEmpty = false := by
    simpa [List.isEmpty_iff] using hne
  simp [hemp, hq, hacc, hst q hqm]

theorem sbf_go_page (fetchPage : Nat → List PostRec) (cutoff : DT)
    (left start : Nat) (hne : fetchPage start ≠ [])
    (hrecent : ¬ ∀ p ∈ fetchPage start, DT.ltb p.date cutoff = true) :
    scrapeBoardFrom fetchPage cutoff (left + 1) start =
      ⟨(fetchPage start).filter (fun p => DT.geb p.date cutoff) ++
          (scrapeBoardFrom fetchPage cutoff left (start + 1)).accepted,
        start ::
          (scrapeBoardFrom fetchPage cutoff left (start + 1)).fetched⟩ := by
  conv_lhs => unfold scrapeBoardFrom
  have hemp : (fetchPage start).isEmpty = false := by
    simpa [List.isEmpty_iff] using hne
  push_neg at hrecent
  obtain ⟨p0, hp0m, hp0⟩ := hrecent
  have haccne :
      (fetchPage start).filter (fun p => DT.geb p.date cutoff) ≠ [] := by
    intro hc
    rw [List.filter_eq_nil_iff] at hc
    exact hc p0 hp0m (by simp [DT.geb, hp0])
  have haccb :
      ((fetchPage start).filter
        (fun p => DT.geb p.date cutoff)).isEmpty = false := by
    simpa [List.isEmpty_iff] using haccne
  obtain ⟨q, hq⟩ := oldestOnPage_isSome (fetchPage start) hne
  simp [hemp, hq, haccb]

theorem scrapeBoardFrom_mem_ge (fetchPage : Nat → List PostRec)
    (cutoff : DT) :
    ∀ left start q,
      q ∈ (scrapeBoardFrom fetchPage cutoff left start).fetched →
        start ≤ q := by
  intro left
  induction left with
  | zero =>
    intro start q hq
    simp [scrapeBoardFrom] at hq
  | succ n ih =>
    intro start q hq
    by_cases hemp : fetchPage start = []
    · rw [sbf_empty_page _ _ _ _ hemp] at hq
      simp at hq
      omega
    · by_cases hall : ∀ p ∈ fetchPage start, DT.ltb p.date cutoff = true
      · rw [sbf_stale_page _ _ _ _ hemp hall] at hq
        simp at hq
        omega
      · rw [sbf_go_page _ _ _ _ hemp hall] at hq
        simp only [List.mem_cons] at hq
        rcases hq with rfl | hq
        · exact Nat.le_refl _
        · have := ih (start + 1) q hq
          omega

/-- A page on which every parsed post is strictly older than the
cutoff (vacuously, an empty page) always breaks the page loop: the
next page number never appears among the fetched pages. -/
theorem scrapeBoardFrom_stops (fetchPage : Nat → List PostRec)
    (cutoff : DT) :
    ∀ left start k,
      k ∈ (scrapeBoardFrom fetchPage cutoff left start).fetched →
      (∀ p ∈ fetchPage k, DT.ltb p.date cutoff = true) →
      k + 1 ∉ (scrapeBoardFrom fetchPage cutoff left start).fetched := by
  intro left
  induction left with
  | zero =>
    intro start k hk _
    simp [scrapeBoardFrom] at hk
  | succ n ih =>
    intro start k hk hstale
    by_cases hemp : fetchPage start = []
    · rw [sbf_empty_page _ _ _ _ hemp] at hk ⊢
      simp at hk
      subst hk
      simp
    · by_cases hall : ∀ p ∈ fetchPage start, DT.ltb p.date cutoff = true
      · rw [sbf_stale_page _ _ _ _ hemp hall] at hk ⊢
        simp at hk
        subst hk
        simp
      · rw [sbf_go_page _ _ _ _ hemp hall] at hk ⊢
        simp only [List.mem_cons] at hk
        rcases hk with rfl | hk
        · exact absurd hstale hall
        · have hge : start + 1 ≤ k :=
            scrapeBoardFrom_mem_ge fetchPage cutoff n (start + 1) k hk
          intro hc
          rcases List.mem_cons.mp hc with h1 | h1
          · omega
          · exact ih (start + 1) k hk hstale h1

/-- Fetched pages are consecutive starting at the given page. -/
theorem scrapeBoardFrom_range (fetchPage : Nat → List PostRec)
    (cutoff : DT) :
    ∀ left start, ∃ m, m ≤ left ∧
      (scrapeBoardFrom fetchPage cutoff left start).fetched =
        List.range' start m := by
  intro left
  induction left with
  | zero =>
    intro start
    exact ⟨0, Nat.le_refl _, rfl⟩
  | succ n ih =>
    intro start
    by_cases hemp : fetchPage start = []
    · refine ⟨1, by omega, ?_⟩
      rw [sbf_empty_page _ _ _ _ hemp]
      simp
    · by_cases hall : ∀ p ∈ fetchPage start, DT.ltb p.date cutoff = true
      · refine ⟨1, by omega, ?_⟩
        rw [sbf_stale_page _ _ _ _ hemp hall]
        simp
      · obtain ⟨m, hm, heq⟩ := ih (start + 1)
        refine ⟨m + 1, by omega, ?_⟩
        rw [sbf_go_page _ _ _ _ hemp hall, List.range'_succ]
        simp [heq]

/-- A fetched page whose successor is not fetched is the last fetched
page (fetched pages are consecutive from page 1). -/
theorem scrapeBoard_last (fetchPage : Nat → List PostRec) (cutoff : DT)
    (P k : Nat) (hk : k ∈ (scrapeBoard fetchPage cutoff P).fetched)
    (hnk : k + 1 ∉ (scrapeBoard fetchPage cutoff P).fetched) :
    (scrapeBoard fetchPage cutoff P).fetched.getLast? = some k := by
  obtain ⟨m, hm, heq⟩ := scrapeBoardFrom_range fetchPage cutoff P 1
  unfold scrapeBoard at hk hnk ⊢
  rw [heq] at hk hnk ⊢
  rw [List.mem_range'_1] at hk
  have hkm : 1 + m ≤ k + 1 := by
    by_contra hc
    push_neg at hc
    exact hnk (List.mem_range'_1.mpr ⟨by omega, hc⟩)
  obtain ⟨mm, rfl⟩ : ∃ mm, m = mm + 1 := ⟨m - 1, by omega⟩
  rw [List.range'_concat, List.getLast?_concat]
  congr 1
  omega

/-- C9: a board whose page 1 yields zero parsed posts ends
immediately: nothing is accepted, only page 1 is ever fetched, and in
particular page 2 is never fetched. -/
theorem c9_stopped_empty (fetchPage : Nat → List PostRec) (cutoff : DT)
    (P : Nat) (hP : 1 ≤ P) (h1 : fetchPage 1 = []) :
    (scrapeBoard fetchPage cutoff P).accepted = [] ∧
      (scrapeBoard fetchPage cutoff P).fetched = [1] ∧
      2 ∉ (scrapeBoard fetchPage cutoff P).fetched := by
  obtain ⟨P0, rfl⟩ : ∃ P0, P = P0 + 1 := ⟨P - 1, by omega⟩
  unfold scrapeBoard
  rw [sbf_empty_page _ _ _ _ h1]
  exact ⟨rfl, rfl, by simp⟩

/-- Fetch function for the C9 witness: every page is empty. -/
def c9fetch : Nat → List PostRec := fun _ => []

/-- Cutoff used by the controller witnesses. -/
def dtCut : DT := ⟨2025, 5, 1, 0, 0, 0⟩

/-- Witness for C9 with an all-empty board and a 2-page limit. -/
theorem c9_stopped_empty_witness :
    (1 ≤ 2 ∧ c9fetch 1 = []) ∧
      ((scrapeBoard c9fetch dtCut 2).accepted = [] ∧
        (scrapeBoard c9fetch dtCut 2).fetched = [1] ∧
        2 ∉ (scrapeBoard c9fetch dtCut 2).fetched) :=
  ⟨⟨by decide, by decide⟩, c9_stopped_empty c9fetch dtCut 2 (by decide) (by decide)⟩

/-- C5: when the controller reaches a non-empty page `k` on which
every parsed post is strictly older than the cutoff (so the oldest
post is older than the cutoff and no post is accepted), it stops the
board exactly at page `k`: page `k+1` is never fetched, `k` is the
last fetched page, and page `k` contributes no accepted post. -/
theorem c5_stopped_stale (fetchPage : Nat → List PostRec) (cutoff : DT)
    (P k : Nat) (hk : k ∈ (scrapeBoard fetchPage cutoff P).fetched)
    (_hne : fetchPage k ≠ [])
    (hstale : ∀ p ∈ fetchPage k, DT.ltb p.date cutoff = true) :
    k + 1 ∉ (scrapeBoard fetchPage cutoff P).fetched ∧
      (scrapeBoard fetchPage cutoff P).fetched.getLast? = some k ∧
      (fetchPage k).filter (fun p => DT.geb p.date cutoff) = [] := by
  have hstop := scrapeBoardFrom_stops fetchPage cutoff P 1 k hk hstale
  exact ⟨hstop, scrapeBoard_last _ _ _ _ hk hstop,
    filter_geb_nil _ _ hstale⟩

/-- A post dated after the witness cutoff, on page 1. -/
def postFresh : PostRec :=
  ⟨("近期帖子").toList, ⟨2025, 5, 2, 10, 0, 0⟩, 9, 1, [], 0, 0, ("1").toList⟩

/-- A post dated before the witness cutoff, on page 2. -/
def postStale : PostRec :=
  ⟨("旧帖子").toList, ⟨2025, 4, 1, 10, 0, 0⟩, 9, 2, [], 0, 0, ("2").toList⟩

/-- Fetch function for the C5 witness: a fresh page 1, a fully stale
page 2. -/
def c5fetch : Nat → List PostRec := fun n =>
  if n = 1 then [postFresh] else if n = 2 then [postStale] else []

/-- Witness for C5: with a 5-page limit the crawl stops exactly at the
stale page 2 and never fetches page 3. -/
theorem c5_stopped_stale_witness :
    (2 ∈ (scrapeBoard c5fetch dtCut 5).fetched ∧ c5fetch 2 ≠ [] ∧
        (∀ p ∈ c5fetch 2, DT.ltb p.date dtCut = true)) ∧
      (2 + 1 ∉ (scrapeBoard c5fetch dtCut 5).fetched ∧
        (scrapeBoard c5fetch dtCut 5).fetched.getLast? = some 2 ∧
        (c5fetch 2).filter (fun p => DT.geb p.date dtCut) = []) :=
  ⟨⟨by decide, by decide, by decide⟩,
    c5_stopped_stale c5fetch dtCut 5 2 (by decide) (by decide) (by decide)⟩

/-- C10: an empty page `p > 1` that the controller reaches also stops
the board (line 417 of `src/测试.py`): page `p+1` is never fetched and
`p` is the last fetched page — a terminal condition beyond the
StoppedEmpty/StoppedStale/Exhausted states of the spec. -/
theorem c10_empty_later_page_stops (fetchPage : Nat → List PostRec)
    (cutoff : DT) (P p : Nat)
    (hp : p ∈ (scrapeBoard fetchPage cutoff P).fetched)
    (_h1p : 1 < p) (hempty : fetchPage p = []) :
    p + 1 ∉ (scrapeBoard fetchPage cutoff P).fetched ∧
      (scrapeBoard fetchPage cutoff P).fetched.getLast? = some p := by
  have hvac : ∀ q ∈ fetchPage p, DT.ltb q.date cutoff = true := by
    intro q hq
    rw [hempty] at hq
    simp at hq
  have hstop := scrapeBoardFrom_stops fetchPage cutoff P 1 p hp hvac
  exact ⟨hstop, scrapeBoard_last _ _ _ _ hp hstop⟩

/-- Fetch function for the C10 witness: one fresh page, then nothing. -/
def c10fetch : Nat → List PostRec := fun n =>
  if n = 1 then [postFresh] else []

/-- Witness for C10: with a 3-page limit, empty page 2 ends the board
and page 3 is never fetched. -/
theorem c10_empty_later_page_stops_witness :
    (2 ∈ (scrapeBoard c10fetch dtCut 3).fetched ∧ 1 < 2 ∧
        c10fetch 2 = []) ∧
      (2 + 1 ∉ (scrapeBoard c10fetch dtCut 3).fetched ∧
        (scrapeBoard c10fetch dtCut 3).fetched.getLast? = some 2) :=
  ⟨⟨by decide, by decide, by decide⟩,
    c10_empty_later_page_stops c10fetch dtCut 3 2 (by decide) (by decide)
      (by decide)⟩

/-! ### Claim C8: date parsing of `src/测试.py`

`parse_date_string` (lines 190–263) tries eight `strptime` formats and
then two `re.search` fallbacks.  Each format or pattern is modelled as
a token list matched by `matchToks`, a backtracking matcher mirroring
the regexes CPython compiles: `%Y` is `\d{4}`, `%y` is `\d{2}`,
`%m` is `1[0-2]|0[1-9]|[1-9]`, `%d` is `3[01]|[12]\d|0[1-9]|[1-9]`,
`%H` is `2[0-3]|[0-1]\d|\d`, `%M` is `[0-5]\d|\d`,
`%S` is `6[0-1]|[0-5]\d|\d`, a blank in the format is `\s+`, other
characters are literals; `strptime` requires the whole string to be
consumed.  `\s+` is matched by maximal munch, which is exact here
because in every modelled pattern the token after `\s+` requires a
digit.  `matchToks` returns the captured numbers in order and the
unconsumed rest. -/

/-- Is a calendar year a leap year (as Python `datetime` computes). -/
def isLeap (y : Nat) : Bool := (y % 4 == 0 && y % 100 != 0) || y % 400 == 0

/-- Days in a month, per Python `datetime`. -/
def daysInMonth (y m : Nat) : Nat :=
  if m = 2 then (if isLeap y then 29 else 28)
  else if m = 4 || m = 6 || m = 9 || m = 11 then 30
  else 31

/-- The validating `datetime.datetime(y, m, d, hh, mi, s)` constructor:
`none` models the `ValueError` it raises. -/
def mkDT (y m d hh mi s : Nat) : Option DT :=
  if 1 ≤ y && y ≤ 9999 && 1 ≤ m && m ≤ 12 && 1 ≤ d && d ≤ daysInMonth y m
      && hh ≤ 23 && mi ≤ 59 && s ≤ 59 then
    some ⟨y, m, d, hh, mi, s⟩
  else none

/-- Numeric value of a digit character. -/
def dv (c : Char) : Nat := c.toNat - 48

/-- Value of a two-digit group. -/
def val2 (c1 c2 : Char) : Nat := 10 * dv c1 + dv c2

/-- Value of a three-digit group. -/
def val3 (c1 c2 c3 : Char) : Nat := 100 * dv c1 + 10 * dv c2 + dv c3

/-- Value of a four-digit group. -/
def val4 (c1 c2 c3 c4 : Char) : Nat :=
  1000 * dv c1 + 100 * dv c2 + 10 * dv c3 + dv c4

/-- Two-digit shape of `%m`: `1[0-2]|0[1-9]`. -/
def monOk2 (c1 c2 : Char) : Bool :=
  c1.isDigit && c2.isDigit &&
    ((c1 == '1' && dv c2 ≤ 2) || (c1 == '0' && 1 ≤ dv c2))

/-- One-digit shape of `%m`: `[1-9]`. -/
def monOk1 (c : Char) : Bool := c.isDigit && 1 ≤ dv c

/-- Two-digit shape of `%d`: `3[01]|[12]\d|0[1-9]`. -/
def dayOk2 (c1 c2 : Char) : Bool :=
  c1.isDigit && c2.isDigit &&
    ((c1 == '3' && dv c2 ≤ 1) || c1 == '1' || c1 == '2' ||
      (c1 == '0' && 1 ≤ dv c2))

/-- One-digit shape of `%d`: `[1-9]`. -/
def dayOk1 (c : Char) : Bool := c.isDigit && 1 ≤ dv c

/-- Two-digit shape of `%H`: `2[0-3]|[0-1]\d`. -/
def hourOk2 (c1 c2 : Char) : Bool :=
  c1.isDigit && c2.isDigit &&
    ((c1 == '2' && dv c2 ≤ 3) || c1 == '0' || c1 == '1')

/-- Two-digit shape of `%M`: `[0-5]\d`. -/
def minOk2 (c1 c2 : Char) : Bool := c1.isDigit && c2.isDigit && dv c1 ≤ 5

/-- Two-digit shape of `%S`: `6[0-1]|[0-5]\d`. -/
def secOk2 (c1 c2 : Char) : Bool :=
  c1.isDigit && c2.isDigit && ((c1 == '6' && dv c2 ≤ 1) || dv c1 ≤ 5)

/-- Two-digit shape of `\d\d`. -/
def anyOk2 (c1 c2 : Char) : Bool := c1.isDigit && c2.isDigit

/-- The dash-or-slash regex character class (a slash or a dash). -/
def isDashSlash (c : Char) : Bool := c == '-' || c == '/'

/-- Pattern tokens. -/
inductive Tok where
  | d4
  | d2
  | mon
  | day
  | hour
  | minSec
  | sec61
  | d12
  | d24
  | lit (c : Char)
  | dashSlash
  | ws
deriving DecidableEq, Repr

/-- The backtracking matcher.  `req = true` demands that the whole
input is consumed (strptime); `req = false` lets the pattern match a
prefix (`re.search` at a fixed position).  Returns the captured
numbers in token order and the unconsumed rest. -/
def matchToks (req : Bool) : List Tok → List Char → Option (List Nat × List Char)
  | [], cs => if req && !cs.isEmpty then none else some ([], cs)
  | .d4 :: ts, cs =>
    match cs with
    | c1 :: c2 :: c3 :: c4 :: r =>
      if c1.isDigit && c2.isDigit && c3.isDigit && c4.isDigit then
        (matchToks req ts r).map (fun pr => (val4 c1 c2 c3 c4 :: pr.1, pr.2))
      else none
    | _ => none
  | .d2 :: ts, cs =>
    match cs with
    | c1 :: c2 :: r =>
      if c1.isDigit && c2.isDigit then
        (matchToks req ts r).map (fun pr => (val2 c1 c2 :: pr.1, pr.2))
      else none
    | _ => none
  | .mon :: ts, cs =>
    match cs with
    | [] => none
    | [c1] =>
      if monOk1 c1 then
        (matchToks req ts []).map (fun pr => (dv c1 :: pr.1, pr.2))
      else none
    | c1 :: c2 :: r =>
      match (if monOk2 c1 c2 then matchToks req ts r else none) with
      | some pr => some (val2 c1 c2 :: pr.1, pr.2)
      | none =>
        if monOk1 c1 then
          (matchToks req ts (c2 :: r)).map (fun pr => (dv c1 :: pr.1, pr.2))
        else none
  | .day :: ts, cs =>
    match cs with
    | [] => none
    | [c1] =>
      if dayOk1 c1 then
        (matchToks req ts []).map (fun pr => (dv c1 :: pr.1, pr.2))
      else none
    | c1 :: c2 :: r =>
      match (if dayOk2 c1 c2 then matchToks req ts r else none) with
      | some pr => some (val2 c1 c2 :: pr.1, pr.2)
      | none =>
        if dayOk1 c1 then
          (matchToks req ts (c2 :: r)).map (fun pr => (dv c1 :: pr.1, pr.2))
        else none
  | .hour :: ts, cs =>
    match cs with
    | [] => none
    | [c1] =>
      if c1.isDigit then
        (matchToks req ts []).map (fun pr => (dv c1 :: pr.1, pr.2))
      else none
    | c1 :: c2 :: r =>
      match (if hourOk2 c1 c2 then matchToks req ts r else none) with
      | some pr => some (val2 c1 c2 :: pr.1, pr.2)
      | none =>
        if c1.isDigit then
          (matchToks req ts (c2 :: r)).map (fun pr => (dv c1 :: pr.1, pr.2))
        else none
  | .minSec :: ts, cs =>
    match cs with
    | [] => none
    | [c1] =>
      if c1.isDigit then
        (matchToks req ts []).map (fun pr => (dv c1 :: pr.1, pr.2))
      else none
    | c1 :: c2 :: r =>
      match (if minOk2 c1 c2 then matchToks req ts r else none) with
      | some pr => some (val2 c1 c2 :: pr.1, pr.2)
      | none =>
        if c1.isDigit then
          (matchToks req ts (c2 :: r)).map (fun pr => (dv c1 :: pr.1, pr.2))
        else none
  | .sec61 :: ts, cs =>
    match cs with
    | [] => none
    | [c1] =>
      if c1.isDigit then
        (matchToks req ts []).map (fun pr => (dv c1 :: pr.1, pr.2))
      else none
    | c1 :: c2 :: r =>
      match (if secOk2 c1 c2 then matchToks req ts r else none) with
      | some pr => some (val2 c1 c2 :: pr.1, pr.2)
      | none =>
        if c1.isDigit then
          (matchToks req ts (c2 :: r)).map (fun pr => (dv c1 :: pr.1, pr.2))
        else none
  | .d12 :: ts, cs =>
    match cs with
    | [] => none
    | [c1] =>
      if c1.isDigit then
        (matchToks req ts []).map (fun pr => (dv c1 :: pr.1, pr.2))
      else none
    | c1 :: c2 :: r =>
      match (if anyOk2 c1 c2 then matchToks req ts r else none) with
      | some pr => some (val2 c1 c2 :: pr.1, pr.2)
      | none =>
        if c1.isDigit then
          (matchToks req ts (c2 :: r)).map (fun pr => (dv c1 :: pr.1, pr.2))
        else none
  | .d24 :: ts, cs =>
    match cs with
    | [] => none
    | [_] => none
    | [c1, c2] =>
      if anyOk2 c1 c2 then
        (matchToks req ts []).map (fun pr => (val2 c1 c2 :: pr.1, pr.2))
      else none
    | [c1, c2, c3] =>
      match (if anyOk2 c1 c2 && c3.isDigit then matchToks req ts [] else none) with
      | some pr => some (val3 c1 c2 c3 :: pr.1, pr.2)
      | none =>
        if anyOk2 c1 c2 then
          (matchToks req ts [c3]).map (fun pr => (val2 c1 c2 :: pr.1, pr.2))
        else none
    | c1 :: c2 :: c3 :: c4 :: r =>
      match (if anyOk2 c1 c2 && anyOk2 c3 c4 then matchToks req ts r else none) with
      | some pr => some (val4 c1 c2 c3 c4 :: pr.1, pr.2)
      | none =>
        match (if anyOk2 c1 c2 && c3.isDigit then matchToks req ts (c4 :: r) else none) with
        | some pr => some (val3 c1 c2 c3 :: pr.1, pr.2)
        | none =>
          if anyOk2 c1 c2 then
            (matchToks req ts (c3 :: c4 :: r)).map
              (fun pr => (val2 c1 c2 :: pr.1, pr.2))
          else none
  | .lit c :: ts, cs =>
    match cs with
    | c1 :: r => if c1 = c then matchToks req ts r else none
    | [] => none
  | .dashSlash :: ts, cs =>
    match cs with
    | c1 :: r => if isDashSlash c1 then matchToks req ts r else none
    | [] => none
  | .ws :: ts, cs =>
    let k := (cs.takeWhile isWs).length
    if k = 0 then none else matchToks req ts (cs.drop k)

/-- Year handling of a strptime format: `%Y`, `%y`, or no year
directive (current year substituted after parsing). -/
inductive YearKind where
  | four
  | two
  | noYear
deriving DecidableEq, Repr

/-- One entry of the `date_formats` list: its compiled token pattern
and its year handling. -/
structure Fmt where
  toks : List Tok
  yk : YearKind
deriving DecidableEq, Repr

/-- The eight formats of `date_formats` (lines 204–213), in order. -/
def dateFormats : List Fmt :=
  [⟨[.d4, .lit '-', .mon, .lit '-', .day, .ws, .hour, .lit ':', .minSec,
      .lit ':', .sec61], .four⟩,
   ⟨[.d4, .lit '-', .mon, .lit '-', .day, .ws, .hour, .lit ':', .minSec],
      .four⟩,
   ⟨[.d4, .lit '-', .mon, .lit '-', .day], .four⟩,
   ⟨[.d2, .lit '-', .mon, .lit '-', .day, .ws, .hour, .lit ':', .minSec,
      .lit ':', .sec61], .two⟩,
   ⟨[.d2, .lit '-', .mon, .lit '-', .day, .ws, .hour, .lit ':', .minSec],
      .two⟩,
   ⟨[.d2, .lit '-', .mon, .lit '-', .day], .two⟩,
   ⟨[.mon, .lit '-', .day, .ws, .hour, .lit ':', .minSec, .lit ':', .sec61],
      .noYear⟩,
   ⟨[.mon, .lit '-', .day, .ws, .hour, .lit ':', .minSec], .noYear⟩]

/-- Build the datetime from a format's captures: `%y` maps 0–68 to
2000–2068 and 69–99 to 1969–1999 (CPython); a year-less format
validates at strptime's default year 1900 and then substitutes the
current year (`dt.replace(year=current_year)`, line 222 — safe, since
any day valid in the non-leap year 1900 is valid in every year).
Missing time captures default to 0. -/
def dtFromCaptures (cy : Nat) (yk : YearKind) (gs : List Nat) : Option DT :=
  match yk with
  | .four =>
    mkDT (gs.getD 0 0) (gs.getD 1 0) (gs.getD 2 0) (gs.getD 3 0)
      (gs.getD 4 0) (gs.getD 5 0)
  | .two =>
    let yv := gs.getD 0 0
    mkDT (if yv ≤ 68 then 2000 + yv else 1900 + yv) (gs.getD 1 0)
      (gs.getD 2 0) (gs.getD 3 0) (gs.getD 4 0) (gs.getD 5 0)
  | .noYear =>
    (mkDT 1900 (gs.getD 0 0) (gs.getD 1 0) (gs.getD 2 0) (gs.getD 3 0)
        (gs.getD 4 0)).map
      (fun dt => { dt with y := cy })

/-- One iteration of the `for fmt in date_formats` loop:
`datetime.datetime.strptime(normalized, fmt)` plus the year fix-up. -/
def tryFormat (cy : Nat) (f : Fmt) (cs : List Char) : Option DT :=
  match matchToks true f.toks cs with
  | none => none
  | some (gs, _) => dtFromCaptures cy f.yk gs

/-- Main token run of the first fallback pattern
`(\d{2,4})-(\d{1,2})-(\d{1,2})\s+(\d{1,2}):(\d{1,2})` (the separator
class also admits a slash). -/
def p1main : List Tok :=
  [.d24, .dashSlash, .d12, .dashSlash, .d12, .ws, .d12, .lit ':', .d12]

/-- Optional seconds tail `(?::(\d{1,2}))?` of both fallbacks. -/
def pOptTail : List Tok := [.lit ':', .d12]

/-- Main token run of the second fallback pattern
`(\d{1,2})-(\d{1,2})\s+(\d{1,2}):(\d{1,2})`. -/
def p2main : List Tok := [.d12, .dashSlash, .d12, .ws, .d12, .lit ':', .d12]

/-- Token run of the pre-extraction regex on line 342:
`(\d{4})-(\d{1,2})-(\d{1,2})\s+(\d{1,2}):(\d{1,2}):(\d{1,2})` (with
the dash-or-slash class). -/
def toks342 : List Tok :=
  [.d4, .dashSlash, .d12, .dashSlash, .d12, .ws, .d12, .lit ':', .d12,
    .lit ':', .d12]

/-- Match a main pattern with a greedy optional tail at one position:
try the pattern with the tail first (regex-greedy), then without.  The
boolean records whether the optional seconds group matched.  For these
patterns the two-phase order coincides with regex backtracking order,
because the minute token can take two digits only when the next
character is a digit, in which case the tail's `:` cannot follow a
one-digit minute either. -/
def matchPatAt (main tail : List Tok) (cs : List Char) :
    Option (List Nat × Bool) :=
  match matchToks false (main ++ tail) cs with
  | some pr => some (pr.1, true)
  | none =>
    match matchToks false main cs with
    | some pr => some (pr.1, false)
    | none => none

/-- `re.search` for a fallback pattern: leftmost position first. -/
def searchPat (main tail : List Tok) : List Char → Option (List Nat × Bool)
  | [] => none
  | c :: t =>
    match matchPatAt main tail (c :: t) with
    | some r => some r
    | none => searchPat main tail t

/-- `re.search` for the line-342 regex, returning the matched text
(`match.group(1)`). -/
def search342 : List Char → Option (List Char)
  | [] => none
  | c :: t =>
    match matchToks false toks342 (c :: t) with
    | some pr =>
      some ((c :: t).take ((c :: t).length - pr.2.length))
    | none => search342 t

/-- `date_str.strip().replace('/', '-')` (line 201). -/
def normChar (c : Char) : Char := if c = '/' then '-' else c

/-- The normalisation of `parse_date_string`. -/
def normalizeDate (s : Str) : Str := (trimL s).map normChar

/-- The first regex fallback (lines 239–249): two-digit years get
2000 added; an invalid calendar tuple (`ValueError`) yields `none` and
the caller moves on to the next pattern. -/
def regexFallback1 (normalized : Str) : Option DT :=
  match searchPat p1main pOptTail normalized with
  | none => none
  | some (gs, hasSec) =>
    let y0 := gs.getD 0 0
    mkDT (if y0 < 100 then y0 + 2000 else y0) (gs.getD 1 0) (gs.getD 2 0)
      (gs.getD 3 0) (gs.getD 4 0) (if hasSec then gs.getD 5 0 else 0)

/-- The second regex fallback (lines 250–257): month-day-time with the
current year. -/
def regexFallback2 (cy : Nat) (normalized : Str) : Option DT :=
  match searchPat p2main pOptTail normalized with
  | none => none
  | some (gs, hasSec) =>
    mkDT cy (gs.getD 0 0) (gs.getD 1 0) (gs.getD 2 0) (gs.getD 3 0)
      (if hasSec then gs.getD 4 0 else 0)

/-- The `for fmt in date_formats` loop. -/
def tryFormatsLoop (cy : Nat) : List Fmt → List Char → Option DT
  | [], _ => none
  | f :: rest, cs =>
    match tryFormat cy f cs with
    | some dt => some dt
    | none => tryFormatsLoop cy rest cs

/-- `parse_date_string` of `src/测试.py` (lines 190–263), with the
current year (`datetime.datetime.now().year`) as a parameter. -/
def parse_date_string (cy : Nat) (date_str : Str) : Option DT :=
  let normalized := normalizeDate date_str
  match tryFormatsLoop cy dateFormats normalized with
  | some dt => some dt
  | none =>
    match regexFallback1 normalized with
    | some dt => some dt
    | none => regexFallback2 cy normalized

/-- The raw fields one `div.list` container yields before record
assembly (lines 297–352 of `src/测试.py`): the extracted title (empty
when absent), author, counts, post id, and the date link's text when
the whole chain of date elements is present. -/
structure Container where
  title_text : Str
  author : Str
  replies : Int
  views : Int
  post_id : Str
  date_str : Option Str
deriving DecidableEq, Repr

/-- The date extraction of lines 333–351: prefer the substring matched
by the line-342 regex, otherwise parse the whole candidate string. -/
def containerDate (cy : Nat) (c : Container) : Option DT :=
  match c.date_str with
  | none => none
  | some ds =>
    match search342 ds with
    | some sub => parse_date_string cy sub
    | none => parse_date_string cy ds

/-- Record assembly of lines 353–365: a post is kept only when it has
a non-empty title and a parsed date. -/
def processContainer (cy bid page : Nat) (c : Container) : Option PostRec :=
  match containerDate cy c with
  | some dt =>
    if c.title_text ≠ [] then
      some ⟨c.title_text, dt, bid, page, c.author, c.replies, c.views,
        c.post_id⟩
    else none
  | none => none

/-- The per-container loop of `parse_board_page` (container isolation:
a dropped container never affects its siblings). -/
def parse_board_page (cy bid page : Nat) (conts : List Container) :
    List PostRec :=
  conts.filterMap (processContainer cy bid page)

/-! ### C8 proof infrastructure -/

theorem drop_takeWhile_length (p : Char → Bool) (l : List Char) :
    l.drop (l.takeWhile p).length = l.dropWhile p := by
  induction l with
  | nil => rfl
  | cons c t ih =>
    by_cases hc : p c
    · simp [List.takeWhile_cons, List.dropWhile_cons, hc, ih]
    · simp [List.takeWhile_cons, List.dropWhile_cons, hc]

theorem dropWhile_head_not (p : Char → Bool) :
    ∀ (l : List Char) (c : Char) (t : List Char),
      l.dropWhile p = c :: t → p c = false := by
  intro l
  induction l with
  | nil => intro c t h; simp at h
  | cons a r ih =>
    intro c t h
    by_cases ha : p a
    · rw [List.dropWhile_cons, if_pos ha] at h
      exact ih c t h
    · rw [List.dropWhile_cons, if_neg ha] at h
      obtain ⟨rfl, -⟩ : a = c ∧ r = t := by simpa using h
      simpa using ha

theorem digit_not_ws (c : Char) (h : c.isDigit = true) : isWs c = false := by
  cases hw : isWs c
  · rfl
  · exfalso
    unfold isWs at hw
    simp only [Char.isWhitespace, Bool.or_eq_true, decide_eq_true_eq] at hw
    rcases hw with ((rfl | rfl) | rfl) | rfl <;> simp [Char.isDigit] at h

theorem normChar_digit (c : Char) (h : c.isDigit = true) : normChar c = c := by
  unfold normChar
  rw [if_neg]
  intro hc
  subst hc
  simp [Char.isDigit] at h

theorem normChar_isDigit (c : Char) (h : c.isDigit = true) :
    (normChar c).isDigit = true := by
  rw [normChar_digit c h]
  exact h

theorem normChar_dashSlash (c : Char) (h : isDashSlash c = true) :
    isDashSlash (normChar c) = true := by
  unfold normChar
  by_cases hc : c = '/'
  · rw [if_pos hc]
    decide
  · rw [if_neg hc]
    exact h

theorem normChar_ws (c : Char) : isWs (normChar c) = isWs c := by
  unfold normChar
  by_cases hc : c = '/'
  · rw [if_pos hc, hc]
    decide
  · rw [if_neg hc]

theorem map_normChar_digits (l : List Char) (h : ∀ c ∈ l, c.isDigit = true) :
    l.map normChar = l := by
  induction l with
  | nil => rfl
  | cons c t ih =>
    simp only [List.map_cons]
    rw [normChar_digit c (h c (by simp)), ih (fun x hx => h x (by simp [hx]))]

theorem inv_d4 (req : Bool) (ts : List Tok) (cs : List Char)
    (pr : List Nat × List Char)
    (h : matchToks req (.d4 :: ts) cs = some pr) :
    ∃ c1 c2 c3 c4 r, cs = c1 :: c2 :: c3 :: c4 :: r ∧
      c1.isDigit = true ∧ c2.isDigit = true ∧ c3.isDigit = true ∧
      c4.isDigit = true ∧ (matchToks req ts r).isSome = true := by
  match cs with
  | [] => simp [matchToks] at h
  | [c1] => simp [matchToks] at h
  | [c1, c2] => simp [matchToks] at h
  | [c1, c2, c3] => simp [matchToks] at h
  | c1 :: c2 :: c3 :: c4 :: r =>
    refine ⟨c1, c2, c3, c4, r, rfl, ?_⟩
    simp only [matchToks] at h
    by_cases hd : (c1.isDigit && c2.isDigit && c3.isDigit && c4.isDigit) = true
    · rw [if_pos hd] at h
      simp only [Bool.and_eq_true] at hd
      refine ⟨hd.1.1.1, hd.1.1.2, hd.1.2, hd.2, ?_⟩
      cases hm : matchToks req ts r
      · rw [hm] at h; simp at h
      · simp [hm]
    · rw [if_neg hd] at h
      simp at h

theorem inv_dashSlash (req : Bool) (ts : List Tok) (cs : List Char)
    (pr : List Nat × List Char)
    (h : matchToks req (.dashSlash :: ts) cs = some pr) :
    ∃ c1 r, cs = c1 :: r ∧ isDashSlash c1 = true ∧
      (matchToks req ts r).isSome = true := by
  match cs with
  | [] => simp [matchToks] at h
  | c1 :: r =>
    refine ⟨c1, r, rfl, ?_⟩
    simp only [matchToks] at h
    by_cases hd : isDashSlash c1 = true
    · rw [if_pos hd] at h
      exact ⟨hd, by simp [h]⟩
    · rw [if_neg hd] at h
      simp at h

theorem inv_lit (req : Bool) (ts : List Tok) (cs : List Char) (ch : Char)
    (pr : List Nat × List Char)
    (h : matchToks req (.lit ch :: ts) cs = some pr) :
    ∃ r, cs = ch :: r ∧ (matchToks req ts r).isSome = true := by
  match cs with
  | [] => simp [matchToks] at h
  | c1 :: r =>
    simp only [matchToks] at h
    by_cases hd : c1 = ch
    · subst hd
      rw [if_pos rfl] at h
      exact ⟨r, rfl, by simp [h]⟩
    · rw [if_neg hd] at h
      simp at h

theorem inv_d12 (req : Bool) (ts : List Tok) (cs : List Char)
    (pr : List Nat × List Char)
    (h : matchToks req (.d12 :: ts) cs = some pr) :
    ∃ seg r, cs = seg ++ r ∧
      ((∃ c1 c2, seg = [c1, c2] ∧ c1.isDigit = true ∧ c2.isDigit = true) ∨
        (∃ c1, seg = [c1] ∧ c1.isDigit = true)) ∧
      (matchToks req ts r).isSome = true := by
  match cs with
  | [] => simp [matchToks] at h
  | [c1] =>
    simp only [matchToks] at h
    by_cases hd : c1.isDigit = true
    · rw [if_pos hd] at h
      refine ⟨[c1], [], rfl, Or.inr ⟨c1, rfl, hd⟩, ?_⟩
      cases hm : matchToks req ts []
      · rw [hm] at h; simp at h
      · simp
    · rw [if_neg hd] at h
      simp at h
  | c1 :: c2 :: r =>
    simp only [matchToks] at h
    cases h2 : (if anyOk2 c1 c2 = true then matchToks req ts r else none) with
    | some pr2 =>
      rw [h2] at h
      by_cases ha : anyOk2 c1 c2 = true
      · rw [if_pos ha] at h2
        unfold anyOk2 at ha
        simp only [Bool.and_eq_true] at ha
        exact ⟨[c1, c2], r, rfl, Or.inl ⟨c1, c2, rfl, ha.1, ha.2⟩,
          by simp [h2]⟩
      · rw [if_neg ha] at h2
        exact absurd h2 (by simp)
    | none =>
      rw [h2] at h
      by_cases hd : c1.isDigit = true
      · rw [if_pos hd] at h
        refine ⟨[c1], c2 :: r, rfl, Or.inr ⟨c1, rfl, hd⟩, ?_⟩
        cases hm : matchToks req ts (c2 :: r)
        · rw [hm] at h; simp at h
        · simp
      · rw [if_neg hd] at h
        simp at h

theorem inv_ws (req : Bool) (ts : List Tok) (cs : List Char)
    (pr : List Nat × List Char)
    (h : matchToks req (.ws :: ts) cs = some pr) :
    ∃ w r, cs = w ++ r ∧ w ≠ [] ∧ (∀ c ∈ w, isWs c = true) ∧
      (∀ c t, r = c :: t → isWs c = false) ∧
      (matchToks req ts r).isSome = true := by
  unfold matchToks at h
  by_cases hk : (cs.takeWhile isWs).length = 0
  · rw [if_pos hk] at h
    simp at h
  · rw [if_neg hk] at h
    refine ⟨cs.takeWhile isWs, cs.dropWhile isWs, ?_, ?_, ?_, ?_, ?_⟩
    · rw [List.takeWhile_append_dropWhile]
    · intro hc
      rw [hc] at hk
      simp at hk
    · intro c hc
      exact List.mem_takeWhile_imp hc
    · intro c t hct
      exact dropWhile_head_not isWs cs c t hct
    · rw [drop_takeWhile_length isWs cs] at h
      simp [h]

theorem fwd_nil (cs : List Char) : (matchToks false [] cs).isSome = true := by
  simp [matchToks]

theorem fwd_d24_4 (ts : List Tok) (c1 c2 c3 c4 : Char) (r : List Char)
    (h1 : c1.isDigit = true) (h2 : c2.isDigit = true) (h3 : c3.isDigit = true)
    (h4 : c4.isDigit = true) (hr : (matchToks false ts r).isSome = true) :
    (matchToks false (.d24 :: ts) (c1 :: c2 :: c3 :: c4 :: r)).isSome = true := by
  obtain ⟨pr, hpr⟩ := Option.isSome_iff_exists.mp hr
  simp only [matchToks]
  rw [if_pos (by simp [anyOk2, h1, h2, h3, h4])]
  rw [hpr]
  simp

theorem fwd_dashSlash (ts : List Tok) (c1 : Char) (r : List Char)
    (h1 : isDashSlash c1 = true) (hr : (matchToks false ts r).isSome = true) :
    (matchToks false (.dashSlash :: ts) (c1 :: r)).isSome = true := by
  simp only [matchToks]
  rw [if_pos h1]
  exact hr

theorem fwd_lit (ts : List Tok) (ch : Char) (r : List Char)
    (hr : (matchToks false ts r).isSome = true) :
    (matchToks false (.lit ch :: ts) (ch :: r)).isSome = true := by
  simp only [matchToks]
  simpa using hr

theorem fwd_d12_1 (ts : List Tok) (c1 : Char) (r : List Char)
    (h1 : c1.isDigit = true) (hr : (matchToks false ts r).isSome = true) :
    (matchToks false (.d12 :: ts) (c1 :: r)).isSome = true := by
  obtain ⟨pr, hpr⟩ := Option.isSome_iff_exists.mp hr
  match r with
  | [] =>
    simp only [matchToks]
    rw [if_pos h1, hpr]
    simp
  | c2 :: r2 =>
    simp only [matchToks]
    cases h2 : (if anyOk2 c1 c2 = true then matchToks false ts r2 else none) with
    | some pr2 => simp
    | none =>
      rw [if_pos h1, hpr]
      simp

theorem fwd_d12_2 (ts : List Tok) (c1 c2 : Char) (r : List Char)
    (h1 : c1.isDigit = true) (h2 : c2.isDigit = true)
    (hr : (matchToks false ts r).isSome = true) :
    (matchToks false (.d12 :: ts) (c1 :: c2 :: r)).isSome = true := by
  obtain ⟨pr, hpr⟩ := Option.isSome_iff_exists.mp hr
  simp only [matchToks]
  rw [if_pos (by simp [anyOk2, h1, h2]), hpr]
  simp

theorem fwd_d12_seg (ts : List Tok) (seg r : List Char)
    (hseg : (∃ c1 c2, seg = [c1, c2] ∧ c1.isDigit = true ∧ c2.isDigit = true) ∨
      (∃ c1, seg = [c1] ∧ c1.isDigit = true))
    (hr : (matchToks false ts r).isSome = true) :
    (matchToks false (.d12 :: ts) (seg ++ r)).isSome = true := by
  rcases hseg with ⟨c1, c2, rfl, h1, h2⟩ | ⟨c1, rfl, h1⟩
  · exact fwd_d12_2 ts c1 c2 r h1 h2 hr
  · exact fwd_d12_1 ts c1 r h1 hr

theorem takeWhile_all_append (p : Char → Bool) (w r : List Char)
    (hws : ∀ c ∈ w, p c = true)
    (hr0 : ∀ c t, r = c :: t → p c = false) :
    (w ++ r).takeWhile p = w := by
  induction w with
  | nil =>
    cases r with
    | nil => rfl
    | cons c t =>
      rw [List.nil_append, List.takeWhile_cons,
        if_neg (by simp [hr0 c t rfl])]
  | cons a wt ih =>
    rw [List.cons_append, List.takeWhile_cons, if_pos (hws a (by simp)),
      ih (fun c hc => hws c (by simp [hc]))]

theorem fwd_ws (ts : List Tok) (w r : List Char) (hw : w ≠ [])
    (hws : ∀ c ∈ w, isWs c = true)
    (hr0 : ∀ c t, r = c :: t → isWs c = false)
    (hr : (matchToks false ts r).isSome = true) :
    (matchToks false (.ws :: ts) (w ++ r)).isSome = true := by
  have htw : (w ++ r).takeWhile isWs = w := takeWhile_all_append isWs w r hws hr0
  unfold matchToks
  rw [htw, if_neg (by simpa [List.length_eq_zero] using hw), List.drop_left]
  exact hr

/-- Full first-fallback pattern (main run plus seconds tail). -/
theorem p1full_eq :
    p1main ++ pOptTail =
      [.d24, .dashSlash, .d12, .dashSlash, .d12, .ws, .d12, .lit ':', .d12,
        .lit ':', .d12] := rfl

/-- A successful line-342 match decomposes the input into the matched
region (with explicit token segments) and a tail. -/
theorem match342_decompose (cs : List Char) (pr : List Nat × List Char)
    (h : matchToks false toks342 cs = some pr) :
    ∃ (c1 c2 c3 c4 s1 s2 : Char) (mseg dseg w hseg miseg sseg tail : List Char),
      cs = c1 :: c2 :: c3 :: c4 :: s1 ::
          (mseg ++ s2 :: (dseg ++ (w ++ (hseg ++ ':' ::
            (miseg ++ ':' :: (sseg ++ tail)))))) ∧
      c1.isDigit = true ∧ c2.isDigit = true ∧ c3.isDigit = true ∧
      c4.isDigit = true ∧ isDashSlash s1 = true ∧ isDashSlash s2 = true ∧
      ((∃ e1 e2, mseg = [e1, e2] ∧ e1.isDigit = true ∧ e2.isDigit = true) ∨
        (∃ e1, mseg = [e1] ∧ e1.isDigit = true)) ∧
      ((∃ e1 e2, dseg = [e1, e2] ∧ e1.isDigit = true ∧ e2.isDigit = true) ∨
        (∃ e1, dseg = [e1] ∧ e1.isDigit = true)) ∧
      w ≠ [] ∧ (∀ c ∈ w, isWs c = true) ∧
      ((∃ e1 e2, hseg = [e1, e2] ∧ e1.isDigit = true ∧ e2.isDigit = true) ∨
        (∃ e1, hseg = [e1] ∧ e1.isDigit = true)) ∧
      ((∃ e1 e2, miseg = [e1, e2] ∧ e1.isDigit = true ∧ e2.isDigit = true) ∨
        (∃ e1, miseg = [e1] ∧ e1.isDigit = true)) ∧
      ((∃ e1 e2, sseg = [e1, e2] ∧ e1.isDigit = true ∧ e2.isDigit = true) ∨
        (∃ e1, sseg = [e1] ∧ e1.isDigit = true)) := by
  unfold toks342 at h
  obtain ⟨c1, c2, c3, c4, r1, rfl, hd1, hd2, hd3, hd4, h1⟩ :=
    inv_d4 _ _ _ _ h
  obtain ⟨pr1, hpr1⟩ := Option.isSome_iff_exists.mp h1
  obtain ⟨s1, r2, rfl, hs1, h2⟩ := inv_dashSlash _ _ _ _ hpr1
  obtain ⟨pr2, hpr2⟩ := Option.isSome_iff_exists.mp h2
  obtain ⟨mseg, r3, rfl, hm, h3⟩ := inv_d12 _ _ _ _ hpr2
  obtain ⟨pr3, hpr3⟩ := Option.isSome_iff_exists.mp h3
  obtain ⟨s2, r4, rfl, hs2, h4⟩ := inv_dashSlash _ _ _ _ hpr3
  obtain ⟨pr4, hpr4⟩ := Option.isSome_iff_exists.mp h4
  obtain ⟨dseg, r5, rfl, hd, h5⟩ := inv_d12 _ _ _ _ hpr4
  obtain ⟨pr5, hpr5⟩ := Option.isSome_iff_exists.mp h5
  obtain ⟨w, r6, rfl, hwne, hwall, hwhead, h6⟩ := inv_ws _ _ _ _ hpr5
  obtain ⟨pr6, hpr6⟩ := Option.isSome_iff_exists.mp h6
  obtain ⟨hseg, r7, rfl, hh, h7⟩ := inv_d12 _ _ _ _ hpr6
  obtain ⟨pr7, hpr7⟩ := Option.isSome_iff_exists.mp h7
  obtain ⟨r8, rfl, h8⟩ := inv_lit _ _ _ _ _ hpr7
  obtain ⟨pr8, hpr8⟩ := Option.isSome_iff_exists.mp h8
  obtain ⟨miseg, r9, rfl, hmi, h9⟩ := inv_d12 _ _ _ _ hpr8
  obtain ⟨pr9, hpr9⟩ := Option.isSome_iff_exists.mp h9
  obtain ⟨r10, rfl, h10⟩ := inv_lit _ _ _ _ _ hpr9
  obtain ⟨pr10, hpr10⟩ := Option.isSome_iff_exists.mp h10
  obtain ⟨sseg, r11, rfl, hsec, h11⟩ := inv_d12 _ _ _ _ hpr10
  exact ⟨c1, c2, c3, c4, s1, s2, mseg, dseg, w, hseg, miseg, sseg, r11,
    rfl, hd1, hd2, hd3, hd4, hs1, hs2, hm, hd, hwne, hwall, hh, hmi, hsec⟩

theorem map_shape (seg : List Char)
    (h : (∃ e1 e2, seg = [e1, e2] ∧ e1.isDigit = true ∧ e2.isDigit = true) ∨
      (∃ e1, seg = [e1] ∧ e1.isDigit = true)) :
    (∃ e1 e2, seg.map normChar = [e1, e2] ∧ e1.isDigit = true ∧
        e2.isDigit = true) ∨
      (∃ e1, seg.map normChar = [e1] ∧ e1.isDigit = true) := by
  rcases h with ⟨e1, e2, rfl, h1, h2⟩ | ⟨e1, rfl, h1⟩
  · exact Or.inl ⟨normChar e1, normChar e2, by simp,
      normChar_isDigit _ h1, normChar_isDigit _ h2⟩
  · exact Or.inr ⟨normChar e1, by simp, normChar_isDigit _ h1⟩

theorem shape_head_digit (seg rest : List Char)
    (h : (∃ e1 e2, seg = [e1, e2] ∧ e1.isDigit = true ∧ e2.isDigit = true) ∨
      (∃ e1, seg = [e1] ∧ e1.isDigit = true)) :
    ∀ c t, seg ++ rest = c :: t → isWs c = false := by
  rcases h with ⟨e1, e2, rfl, h1, h2⟩ | ⟨e1, rfl, h1⟩ <;> intro c t hct
  · obtain ⟨rfl, -⟩ : e1 = c ∧ e2 :: rest = t := by simpa using hct
    exact digit_not_ws _ h1
  · obtain ⟨rfl, -⟩ : e1 = c ∧ rest = t := by simpa using hct
    exact digit_not_ws _ h1

theorem p1_match_of_segments (c1 c2 c3 c4 s1 s2 : Char)
    (mseg dseg w hseg miseg sseg B : List Char)
    (hd1 : c1.isDigit = true) (hd2 : c2.isDigit = true)
    (hd3 : c3.isDigit = true) (hd4 : c4.isDigit = true)
    (hs1 : isDashSlash s1 = true) (hs2 : isDashSlash s2 = true)
    (hm : (∃ e1 e2, mseg = [e1, e2] ∧ e1.isDigit = true ∧ e2.isDigit = true) ∨
      (∃ e1, mseg = [e1] ∧ e1.isDigit = true))
    (hd : (∃ e1 e2, dseg = [e1, e2] ∧ e1.isDigit = true ∧ e2.isDigit = true) ∨
      (∃ e1, dseg = [e1] ∧ e1.isDigit = true))
    (hwne : w ≠ []) (hwall : ∀ c ∈ w, isWs c = true)
    (hh : (∃ e1 e2, hseg = [e1, e2] ∧ e1.isDigit = true ∧ e2.isDigit = true) ∨
      (∃ e1, hseg = [e1] ∧ e1.isDigit = true))
    (hmi : (∃ e1 e2, miseg = [e1, e2] ∧ e1.isDigit = true ∧
        e2.isDigit = true) ∨
      (∃ e1, miseg = [e1] ∧ e1.isDigit = true))
    (hsec : (∃ e1 e2, sseg = [e1, e2] ∧ e1.isDigit = true ∧
        e2.isDigit = true) ∨
      (∃ e1, sseg = [e1] ∧ e1.isDigit = true)) :
    (matchToks false (p1main ++ pOptTail)
      (normChar c1 :: normChar c2 :: normChar c3 :: normChar c4 ::
        normChar s1 ::
        (mseg.map normChar ++ normChar s2 ::
          (dseg.map normChar ++ (w.map normChar ++ (hseg.map normChar ++
            ':' :: (miseg.map normChar ++ ':' ::
              (sseg.map normChar ++ B)))))))).isSome = true := by
  rw [p1full_eq]
  have t9 : (matchToks false [.d12] (sseg.map normChar ++ B)).isSome = true :=
    fwd_d12_seg [] _ _ (map_shape _ hsec) (fwd_nil B)
  have t8 : (matchToks false [.lit ':', .d12]
      (':' :: (sseg.map normChar ++ B))).isSome = true :=
    fwd_lit [.d12] ':' _ t9
  have t7 : (matchToks false [.d12, .lit ':', .d12]
      (miseg.map normChar ++ ':' :: (sseg.map normChar ++ B))).isSome = true :=
    fwd_d12_seg [.lit ':', .d12] _ _ (map_shape _ hmi) t8
  have t6 : (matchToks false [.lit ':', .d12, .lit ':', .d12]
      (':' :: (miseg.map normChar ++ ':' ::
        (sseg.map normChar ++ B)))).isSome = true :=
    fwd_lit [.d12, .lit ':', .d12] ':' _ t7
  have t5 : (matchToks false [.d12, .lit ':', .d12, .lit ':', .d12]
      (hseg.map normChar ++ ':' :: (miseg.map normChar ++ ':' ::
        (sseg.map normChar ++ B)))).isSome = true :=
    fwd_d12_seg [.lit ':', .d12, .lit ':', .d12] _ _ (map_shape _ hh) t6
  have t4 : (matchToks false [.ws, .d12, .lit ':', .d12, .lit ':', .d12]
      (w.map normChar ++ (hseg.map normChar ++ ':' ::
        (miseg.map normChar ++ ':' :: (sseg.map normChar ++ B))))).isSome =
        true := by
    refine fwd_ws _ _ _ ?_ ?_ ?_ t5
    · simpa using hwne
    · intro c hc
      rw [List.mem_map] at hc
      obtain ⟨c0, hc0, rfl⟩ := hc
      rw [normChar_ws]
      exact hwall c0 hc0
    · exact shape_head_digit (hseg.map normChar) _ (map_shape _ hh)
  have t3 : (matchToks false [.d12, .ws, .d12, .lit ':', .d12, .lit ':', .d12]
      (dseg.map normChar ++ (w.map normChar ++ (hseg.map normChar ++ ':' ::
        (miseg.map normChar ++ ':' :: (sseg.map normChar ++ B)))))).isSome =
        true :=
    fwd_d12_seg [.ws, .d12, .lit ':', .d12, .lit ':', .d12] _ _
      (map_shape _ hd) t4
  have t2 : (matchToks false
      [.dashSlash, .d12, .ws, .d12, .lit ':', .d12, .lit ':', .d12]
      (normChar s2 :: (dseg.map normChar ++ (w.map normChar ++
        (hseg.map normChar ++ ':' :: (miseg.map normChar ++ ':' ::
          (sseg.map normChar ++ B))))))).isSome = true :=
    fwd_dashSlash _ _ _ (normChar_dashSlash _ hs2) t3
  have t1 : (matchToks false
      [.d12, .dashSlash, .d12, .ws, .d12, .lit ':', .d12, .lit ':', .d12]
      (mseg.map normChar ++ normChar s2 :: (dseg.map normChar ++
        (w.map normChar ++ (hseg.map normChar ++ ':' ::
          (miseg.map normChar ++ ':' ::
            (sseg.map normChar ++ B))))))).isSome = true :=
    fwd_d12_seg [.dashSlash, .d12, .ws, .d12, .lit ':', .d12, .lit ':', .d12]
      _ _ (map_shape _ hm) t2
  have t0 : (matchToks false
      [.dashSlash, .d12, .dashSlash, .d12, .ws, .d12, .lit ':', .d12,
        .lit ':', .d12]
      (normChar s1 :: (mseg.map normChar ++ normChar s2 ::
        (dseg.map normChar ++ (w.map normChar ++ (hseg.map normChar ++ ':' ::
          (miseg.map normChar ++ ':' ::
            (sseg.map normChar ++ B)))))))).isSome = true :=
    fwd_dashSlash _ _ _ (normChar_dashSlash _ hs1) t1
  exact fwd_d24_4 _ _ _ _ _ _ (normChar_isDigit _ hd1) (normChar_isDigit _ hd2)
    (normChar_isDigit _ hd3) (normChar_isDigit _ hd4) t0

theorem normChar_colon : normChar ':' = ':' := by decide

theorem occurs_dropWhile (p : Char → Bool) (c : Char) (t : List Char)
    (hc : p c = false) :
    ∀ u, ∃ u2, (u ++ (c :: t)).dropWhile p = u2 ++ (c :: t) := by
  intro u
  induction u with
  | nil => exact ⟨[], by simp [List.dropWhile_cons, hc]⟩
  | cons a u2 ih =>
    by_cases ha : p a
    · obtain ⟨u3, h3⟩ := ih
      exact ⟨u3, by simpa [List.dropWhile_cons, ha] using h3⟩
    · exact ⟨a :: u2, by simp [List.dropWhile_cons, ha]⟩

theorem occurs_rdropWhile (p : Char → Bool) (rl : Char) (hrl : p rl = false)
    (u rinit v : List Char) :
    ∃ v2, (u ++ (rinit ++ [rl]) ++ v).rdropWhile p =
      u ++ (rinit ++ [rl]) ++ v2 := by
  obtain ⟨u2, h2⟩ := occurs_dropWhile p rl (rinit.reverse ++ u.reverse) hrl
    v.reverse
  refine ⟨u2.reverse, ?_⟩
  unfold List.rdropWhile
  rw [show (u ++ (rinit ++ [rl]) ++ v).reverse =
    v.reverse ++ (rl :: (rinit.reverse ++ u.reverse)) from by simp]
  rw [h2]
  simp

theorem region_in_trimL (u v region : List Char)
    (hhead : ∀ c t, region = c :: t → isWs c = false)
    (hlast : ∃ rinit rl, region = rinit ++ [rl] ∧ isWs rl = false)
    (hne : region ≠ []) :
    ∃ u2 v2, trimL (u ++ region ++ v) = u2 ++ region ++ v2 := by
  obtain ⟨c, t, rfl⟩ : ∃ c t, region = c :: t := by
    cases region with
    | nil => exact absurd rfl hne
    | cons c t => exact ⟨c, t, rfl⟩
  obtain ⟨u2, h2⟩ := occurs_dropWhile isWs c (t ++ v) (hhead c t rfl) u
  obtain ⟨rinit, rl, hreq, hrl⟩ := hlast
  obtain ⟨v2, h3⟩ := occurs_rdropWhile isWs rl hrl u2 rinit v
  refine ⟨u2, v2, ?_⟩
  unfold trimL
  rw [show u ++ (c :: t) ++ v = u ++ (c :: (t ++ v)) from by simp, h2,
    show u2 ++ c :: (t ++ v) = u2 ++ (rinit ++ [rl]) ++ v from by
      rw [← hreq]; simp, h3, hreq]

theorem search342_sound : ∀ (ds sub : List Char), search342 ds = some sub →
    ∃ u t pr, ds = u ++ t ∧ matchToks false toks342 t = some pr := by
  intro ds
  induction ds with
  | nil => intro sub h; simp [search342] at h
  | cons c tl ih =>
    intro sub h
    unfold search342 at h
    cases hm : matchToks false toks342 (c :: tl) with
    | some pr => exact ⟨[], c :: tl, pr, rfl, hm⟩
    | none =>
      rw [hm] at h
      obtain ⟨u, t, pr, heq, hmt⟩ := ih sub h
      exact ⟨c :: u, t, pr, by simp [heq], hmt⟩

theorem matchPatAt_of_full (main tail : List Tok) (cs : List Char)
    (h : (matchToks false (main ++ tail) cs).isSome = true) :
    (matchPatAt main tail cs).isSome = true := by
  unfold matchPatAt
  obtain ⟨pr, hpr⟩ := Option.isSome_iff_exists.mp h
  rw [hpr]
  simp

theorem searchPat_found (main tail : List Tok) :
    ∀ (A rest : List Char), (matchPatAt main tail rest).isSome = true →
      rest ≠ [] → searchPat main tail (A ++ rest) ≠ none := by
  intro A
  induction A with
  | nil =>
    intro rest h hne
    cases rest with
    | nil => exact absurd rfl hne
    | cons c t =>
      rw [List.nil_append]
      unfold searchPat
      obtain ⟨r0, hr0⟩ := Option.isSome_iff_exists.mp h
      rw [hr0]
      simp
  | cons a A2 ih =>
    intro rest h hne
    rw [List.cons_append]
    unfold searchPat
    cases hm : matchPatAt main tail (a :: (A2 ++ rest)) with
    | some r0 => simp
    | none => exact ih rest h hne

/-- A match of the pre-extraction regex (line 342) on the raw date
string forces a match of the first fallback pattern on the normalised
string: the matched region starts and ends with a digit, hence
survives stripping, and its normal form (slashes turned into dashes)
still fits the weaker pattern. -/
theorem search342_implies_p1 (ds sub : List Char)
    (h : search342 ds = some sub) :
    searchPat p1main pOptTail (normalizeDate ds) ≠ none := by
  obtain ⟨u, t, pr, rfl, hmt⟩ := search342_sound ds sub h
  obtain ⟨c1, c2, c3, c4, s1, s2, mseg, dseg, w, hseg, miseg, sseg, tail,
    heq, hd1, hd2, hd3, hd4, hs1, hs2, hm, hd, hwne, hwall, hh, hmi, hsec⟩ :=
    match342_decompose t pr hmt
  subst heq
  set region : List Char := c1 :: c2 :: c3 :: c4 :: s1 ::
    (mseg ++ s2 :: (dseg ++ (w ++ (hseg ++ ':' ::
      (miseg ++ ':' :: sseg))))) with hregion
  have hsplit : c1 :: c2 :: c3 :: c4 :: s1 ::
      (mseg ++ s2 :: (dseg ++ (w ++ (hseg ++ ':' ::
        (miseg ++ ':' :: (sseg ++ tail)))))) = region ++ tail := by
    rw [hregion]
    simp
  rw [hsplit]
  have hhead : ∀ c t0, region = c :: t0 → isWs c = false := by
    intro c t0 hct
    rw [hregion] at hct
    have hc1 : c1 = c := (List.cons.injEq _ _ _ _).mp hct |>.1
    subst hc1
    exact digit_not_ws _ hd1
  have hlast : ∃ rinit rl, region = rinit ++ [rl] ∧ isWs rl = false := by
    rcases hsec with ⟨e1, e2, rfl, he1, he2⟩ | ⟨e1, rfl, he1⟩
    · refine ⟨c1 :: c2 :: c3 :: c4 :: s1 ::
        (mseg ++ s2 :: (dseg ++ (w ++ (hseg ++ ':' ::
          (miseg ++ ':' :: [e1]))))), e2, ?_, digit_not_ws _ he2⟩
      rw [hregion]
      simp
    · refine ⟨c1 :: c2 :: c3 :: c4 :: s1 ::
        (mseg ++ s2 :: (dseg ++ (w ++ (hseg ++ ':' ::
          (miseg ++ [':']))))), e1, ?_, digit_not_ws _ he1⟩
      rw [hregion]
      simp
  have hne : region ≠ [] := by rw [hregion]; simp
  obtain ⟨u2, v2, htrim⟩ := region_in_trimL u tail region hhead hlast hne
  have hnorm : normalizeDate (u ++ region ++ tail) =
      u2.map normChar ++ (region.map normChar ++ v2.map normChar) := by
    unfold normalizeDate
    rw [htrim]
    simp
  have hfull := p1_match_of_segments c1 c2 c3 c4 s1 s2 mseg dseg w hseg miseg
    sseg (v2.map normChar) hd1 hd2 hd3 hd4 hs1 hs2 hm hd hwne hwall hh hmi hsec
  have hmap : region.map normChar ++ v2.map normChar =
      normChar c1 :: normChar c2 :: normChar c3 :: normChar c4 ::
        normChar s1 ::
        (mseg.map normChar ++ normChar s2 ::
          (dseg.map normChar ++ (w.map normChar ++ (hseg.map normChar ++
            ':' :: (miseg.map normChar ++ ':' ::
              (sseg.map normChar ++ v2.map normChar)))))) := by
    rw [hregion]
    simp [normChar_colon]
  have hAt : (matchPatAt p1main pOptTail
      (region.map normChar ++ v2.map normChar)).isSome = true := by
    apply matchPatAt_of_full
    rw [hmap]
    exact hfull
  have hne2 : region.map normChar ++ v2.map normChar ≠ [] := by
    rw [hregion]
    simp
  rw [← List.append_assoc, hnorm]
  exact searchPat_found p1main pOptTail (u2.map normChar) _ hAt hne2

/-- The ten parsing strategies in the order `parse_date_string` tries
them: the eight strptime formats, then the two regex fallbacks. -/
def dateStrategies (cy : Nat) : List (Str → Option DT) :=
  dateFormats.map (fun f => tryFormat cy f) ++
    [regexFallback1, regexFallback2 cy]

/-- First-hit dispatch over a strategy list. -/
def firstSome : List (Str → Option DT) → Str → Option DT
  | [], _ => none
  | g :: rest, cs =>
    match g cs with
    | some dt => some dt
    | none => firstSome rest cs

theorem firstSome_cons (g : Str → Option DT) (rest : List (Str → Option DT))
    (cs : Str) :
    firstSome (g :: rest) cs =
      match g cs with
      | some dt => some dt
      | none => firstSome rest cs := rfl

theorem tryFormatsLoop_cons (cy : Nat) (f : Fmt) (rest : List Fmt) (cs : Str) :
    tryFormatsLoop cy (f :: rest) cs =
      match tryFormat cy f cs with
      | some dt => some dt
      | none => tryFormatsLoop cy rest cs := rfl

theorem tryFormatsLoop_eq_firstSome (cy : Nat) :
    ∀ (fs : List Fmt) (cs : Str),
      tryFormatsLoop cy fs cs = firstSome (fs.map (tryFormat cy)) cs := by
  intro fs
  induction fs with
  | nil => intro cs; rfl
  | cons f rest ih =>
    intro cs
    rw [List.map_cons, tryFormatsLoop_cons, firstSome_cons]
    cases h : tryFormat cy f cs with
    | some dt => simp
    | none => simp [ih cs]

theorem firstSome_append : ∀ (a b : List (Str → Option DT)) (cs : Str),
    firstSome (a ++ b) cs =
      match firstSome a cs with
      | some dt => some dt
      | none => firstSome b cs := by
  intro a
  induction a with
  | nil => intro b cs; rfl
  | cons g rest ih =>
    intro b cs
    rw [List.cons_append, firstSome_cons, firstSome_cons]
    cases h : g cs with
    | some dt => simp
    | none => simp [ih b cs]

/-- The dispatch order of `parse_date_string`: normalise, then return
the first strategy hit. -/
theorem parse_date_string_eq_firstSome (cy : Nat) (s : Str) :
    parse_date_string cy s =
      firstSome (dateStrategies cy) (normalizeDate s) := by
  unfold parse_date_string dateStrategies
  rw [firstSome_append, ← tryFormatsLoop_eq_firstSome]
  cases h1 : tryFormatsLoop cy dateFormats (normalizeDate s) with
  | some dt => simp [h1]
  | none =>
    rw [firstSome_cons, firstSome_cons]
    cases h2 : regexFallback1 (normalizeDate s) with
    | some dt => simp [h1, h2]
    | none =>
      cases h3 : regexFallback2 cy (normalizeDate s) with
      | some dt => simp [h1, h2, h3, firstSome]
      | none => simp [h1, h2, h3, firstSome]

/-- The string matches none of the ten strategies at the pattern
level: no strptime format consumes the whole normalised string and
neither fallback regex finds a match anywhere in it. -/
def noStrategyMatch (s : Str) : Prop :=
  (∀ f ∈ dateFormats, matchToks true f.toks (normalizeDate s) = none) ∧
    searchPat p1main pOptTail (normalizeDate s) = none ∧
    searchPat p2main pOptTail (normalizeDate s) = none

/-- Decidability of `noStrategyMatch`, for concrete witnesses. -/
instance noStrategyMatchDec (s : Str) : Decidable (noStrategyMatch s) := by
  unfold noStrategyMatch
  infer_instance

theorem tryFormatsLoop_none (cy : Nat) (cs : Str) :
    ∀ fs : List Fmt, (∀ f ∈ fs, matchToks true f.toks cs = none) →
      tryFormatsLoop cy fs cs = none := by
  intro fs
  induction fs with
  | nil => intro _; rfl
  | cons f rest ih =>
    intro h
    unfold tryFormatsLoop tryFormat
    rw [h f (by simp)]
    exact ih (fun g hg => h g (by simp [hg]))

theorem firstSome_none (cs : Str) :
    ∀ gs : List (Str → Option DT), (∀ g ∈ gs, g cs = none) →
      firstSome gs cs = none := by
  intro gs
  induction gs with
  | nil => intro _; rfl
  | cons g rest ih =>
    intro h
    rw [firstSome_cons, h g (by simp)]
    exact ih (fun g2 hg2 => h g2 (by simp [hg2]))

theorem parse_date_string_none (cy : Nat) (s : Str)
    (h : noStrategyMatch s) : parse_date_string cy s = none := by
  rw [parse_date_string_eq_firstSome]
  apply firstSome_none
  intro g hg
  unfold dateStrategies at hg
  rw [List.mem_append] at hg
  rcases hg with hg | hg
  · rw [List.mem_map] at hg
    obtain ⟨f, hf, rfl⟩ := hg
    unfold tryFormat
    rw [h.1 f hf]
  · rcases List.mem_pair.mp hg with rfl | rfl
    · unfold regexFallback1
      rw [h.2.1]
    · unfold regexFallback2
      rw [h.2.2]

theorem search342_none_of_noMatch (ds : Str) (h : noStrategyMatch ds) :
    search342 ds = none := by
  cases hs : search342 ds with
  | none => rfl
  | some sub => exact absurd h.2.1 (search342_implies_p1 ds sub hs)

theorem containerDate_none (cy : Nat) (cont : Container) (ds : Str)
    (hds : cont.date_str = some ds) (h : noStrategyMatch ds) :
    containerDate cy cont = none := by
  unfold containerDate
  rw [hds]
  show (match search342 ds with
    | some sub => parse_date_string cy sub
    | none => parse_date_string cy ds) = none
  rw [search342_none_of_noMatch ds h]
  exact parse_date_string_none cy ds h

theorem processContainer_none (cy bid page : Nat) (cont : Container)
    (ds : Str) (hds : cont.date_str = some ds) (h : noStrategyMatch ds) :
    processContainer cy bid page cont = none := by
  unfold processContainer
  rw [containerDate_none cy cont ds hds h]

/-- C8: `parse_date_string` dispatches to the eight strptime formats
in their listed order and then to the two regex fallbacks, returning
the first hit; a string on which no format fullmatches and neither
fallback pattern matches yields no date; the record owning such a date
string is dropped from the board-page output (its siblings are
unaffected); and the supported formats parse to the expected calendar
tuples (four concrete instances: explicit seconds, two-digit year
without seconds, date only, year-less month-day given the current
year, and the full-date regex fallback inside surrounding prose). -/
theorem c8_date_parsing (cy bid page : Nat) (s ds : Str)
    (cont : Container) (pre post : List Container)
    (hds : cont.date_str = some ds) (hnm : noStrategyMatch ds) :
    parse_date_string cy s =
        firstSome (dateStrategies cy) (normalizeDate s) ∧
      parse_date_string cy ds = none ∧
      processContainer cy bid page cont = none ∧
      parse_board_page cy bid page (pre ++ cont :: post) =
        parse_board_page cy bid page pre ++
          parse_board_page cy bid page post ∧
      parse_date_string 2025 (("2023-01-02 10:30:45").toList) =
        some ⟨2023, 1, 2, 10, 30, 45⟩ ∧
      parse_date_string 2025 (("23-01-02 10:30").toList) =
        some ⟨2023, 1, 2, 10, 30, 0⟩ ∧
      parse_date_string 2025 (("2023-01-02").toList) =
        some ⟨2023, 1, 2, 0, 0, 0⟩ ∧
      parse_date_string 2025 (("01-02 10:30").toList) =
        some ⟨2025, 1, 2, 10, 30, 0⟩ ∧
      parse_date_string 2025 (("时间2023/1/2 10:30:45发布").toList) =
        some ⟨2023, 1, 2, 10, 30, 45⟩ := by
  refine ⟨parse_date_string_eq_firstSome cy s,
    parse_date_string_none cy ds hnm,
    processContainer_none cy bid page cont ds hds hnm, ?_,
    by decide, by decide, by decide, by decide, by decide⟩
  unfold parse_board_page
  rw [List.filterMap_append]
  simp [List.filterMap_cons,
    processContainer_none cy bid page cont ds hds hnm]

/-- Unparsable date string of the C8 witness. -/
def c8badDate : Str := ("昨天 下午").toList

/-- Container of the C8 witness: a titled post whose date string is
unparsable. -/
def c8cont : Container :=
  ⟨("帖子标题").toList, ("作者").toList, 0, 0, ("99").toList,
    some c8badDate⟩

/-- Witness for C8 at the concrete unparsable date string `昨天 下午`
(matching no format and neither fallback pattern). -/
theorem c8_date_parsing_witness :
    (c8cont.date_str = some c8badDate ∧ noStrategyMatch c8badDate) ∧
      (parse_date_string 2025 (("x").toList) =
          firstSome (dateStrategies 2025) (normalizeDate (("x").toList)) ∧
        parse_date_string 2025 c8badDate = none ∧
        processContainer 2025 9 1 c8cont = none ∧
        parse_board_page 2025 9 1 ([] ++ c8cont :: []) =
          parse_board_page 2025 9 1 [] ++ parse_board_page 2025 9 1 [] ∧
        parse_date_string 2025 (("2023-01-02 10:30:45").toList) =
          some ⟨2023, 1, 2, 10, 30, 45⟩ ∧
        parse_date_string 2025 (("23-01-02 10:30").toList) =
          some ⟨2023, 1, 2, 10, 30, 0⟩ ∧
        parse_date_string 2025 (("2023-01-02").toList) =
          some ⟨2023, 1, 2, 0, 0, 0⟩ ∧
        parse_date_string 2025 (("01-02 10:30").toList) =
          some ⟨2025, 1, 2, 10, 30, 0⟩ ∧
        parse_date_string 2025 (("时间2023/1/2 10:30:45发布").toList) =
          some ⟨2023, 1, 2, 10, 30, 45⟩) :=
  ⟨⟨rfl, by decide⟩,
    c8_date_parsing 2025 9 1 (("x").toList) c8badDate c8cont [] [] rfl
      (by decide)⟩
